import Mathlib

/-!
Shallow embedding of the Redis-protocol reactor core of `crrow/libxev-go`:
the RESP2 value model and incremental parser (`pkg/redisproto/parser.go`,
`value.go`), the encoder (`encode.go`), the key/value store (`pkg/redismvp/
store.go`), and the command-dispatch / read-completion logic of the
connection reactor (`pkg/redismvp/server.go`).

Go byte slices and strings are modelled as `List Nat` (one entry per byte);
Go `int64` is modelled as `Int` with explicit wrap-around (`% 2^64`) where Go
overflow semantics matter; fallible Go functions returning `(T, error)`
become `Except`/`Option` values.  Parse errors are modelled as an inductive
carrying the data that Go interpolates into its `fmt.Errorf` message, plus a
rendering function for the message bytes used in protocol-error replies.
-/

namespace LibxevRedis

/-- RESP2 value (`redisproto.Value`, a tagged union over `Kind`). The Go
struct carries all payload fields at once with a `Kind` discriminator; only
the field relevant to the kind is ever read, so the faithful value-level
model is this inductive. `Integer` holds a Go `int64`; the int64 range
constraint is imposed via `intFits` where it matters. -/
inductive Value where
  | simpleString (s : List Nat)
  | error (s : List Nat)
  | integer (n : Int)
  | bulkString (b : List Nat)
  | array (a : List Value)
  | null
deriving Repr

mutual
/-- Boolean equality on `Value` (deep structural equality, matching Go's
`reflect.DeepEqual` on fully-initialised values). -/
def Value.beq : Value → Value → Bool
  | .simpleString s, .simpleString t => s == t
  | .error s, .error t => s == t
  | .integer m, .integer n => m == n
  | .bulkString b, .bulkString c => b == c
  | .array a, .array b => Value.beqList a b
  | .null, .null => true
  | _, _ => false

/-- Boolean equality on lists of `Value`. -/
def Value.beqList : List Value → List Value → Bool
  | [], [] => true
  | v :: r, w :: s => Value.beq v w && Value.beqList r s
  | _, _ => false
end

mutual
theorem Value.eq_of_beq : ∀ {a b : Value}, Value.beq a b = true → a = b
  | .simpleString _, .simpleString _, h => by
    simp only [Value.beq, beq_iff_eq] at h; rw [h]
  | .error _, .error _, h => by
    simp only [Value.beq, beq_iff_eq] at h; rw [h]
  | .integer _, .integer _, h => by
    simp only [Value.beq, beq_iff_eq] at h; rw [h]
  | .bulkString _, .bulkString _, h => by
    simp only [Value.beq, beq_iff_eq] at h; rw [h]
  | .array _, .array _, h => by
    simp only [Value.beq] at h
    rw [Value.eqList_of_beqList h]
  | .null, .null, _ => rfl

theorem Value.eqList_of_beqList : ∀ {a b : List Value}, Value.beqList a b = true → a = b
  | [], [], _ => rfl
  | _ :: _, _ :: _, h => by
    simp only [Value.beqList, Bool.and_eq_true] at h
    rw [Value.eq_of_beq h.1, Value.eqList_of_beqList h.2]
end

mutual
theorem Value.beq_refl : ∀ a : Value, Value.beq a a = true
  | .simpleString s => by simp [Value.beq]
  | .error s => by simp [Value.beq]
  | .integer m => by simp [Value.beq]
  | .bulkString b => by simp [Value.beq]
  | .array a => by simp [Value.beq, Value.beqList_refl a]
  | .null => rfl

theorem Value.beqList_refl : ∀ a : List Value, Value.beqList a a = true
  | [] => rfl
  | v :: r => by simp [Value.beqList, Value.beq_refl v, Value.beqList_refl r]
end

instance : DecidableEq Value := fun a b =>
  decidable_of_iff (Value.beq a b = true)
    ⟨Value.eq_of_beq, fun h => h ▸ Value.beq_refl a⟩

instance {ε α : Type} [DecidableEq ε] [DecidableEq α] : DecidableEq (Except ε α) := fun x y =>
  match x, y with
  | .ok a, .ok b =>
    if h : a = b then isTrue (by rw [h]) else isFalse (by intro hh; cases hh; exact h rfl)
  | .error a, .error b =>
    if h : a = b then isTrue (by rw [h]) else isFalse (by intro hh; cases hh; exact h rfl)
  | .ok _, .error _ => isFalse (by intro hh; cases hh)
  | .error _, .ok _ => isFalse (by intro hh; cases hh)

/-- `Kind.String()` of `value.go`, used in diagnostics. -/
def Value.kindName : Value → String
  | .simpleString _ => "simple_string"
  | .error _ => "error"
  | .integer _ => "integer"
  | .bulkString _ => "bulk_string"
  | .array _ => "array"
  | .null => "null"

/-! ## Integer parsing and formatting (`strconv.ParseInt` base 10 bitSize 64,
`strconv.AppendInt`/`FormatInt` base 10) -/

/-- Smallest Go `int64`. -/
def int64Min : Int := -(2 ^ 63)
/-- Largest Go `int64`. -/
def int64Max : Int := 2 ^ 63 - 1

/-- Go `int64` two's-complement wrap-around of an unbounded integer. -/
def wrap64 (x : Int) : Int := (x + 2 ^ 63) % 2 ^ 64 - 2 ^ 63

/-- Accumulating decimal-digit reader: fails on the first non-digit byte. -/
def digitsValAux (acc : Nat) : List Nat → Option Nat
  | [] => some acc
  | b :: r => if 48 ≤ b ∧ b ≤ 57 then digitsValAux (acc * 10 + (b - 48)) r else none

/-- Value of a non-empty all-decimal-digit byte string; `none` otherwise. -/
def decDigitsVal (l : List Nat) : Option Nat :=
  if l.isEmpty then none else digitsValAux 0 l

/-- `strconv.ParseInt(string(s), 10, 64)`: optional single `+`/`-` sign, then
one or more decimal digits, with the value required to fit in `int64`
(`[-2^63, 2^63-1]`).  Go additionally returns a clamped value together with
`ErrRange` on overflow, but every caller in this repository only checks
`err != nil`, so overflow is modelled as `none` like any other failure. -/
def parseInt64 (s : List Nat) : Option Int :=
  match s with
  | 43 :: rest =>
    match decDigitsVal rest with
    | none => none
    | some m => if (m : Int) ≤ int64Max then some (m : Int) else none
  | 45 :: rest =>
    match decDigitsVal rest with
    | none => none
    | some m => if (m : Int) ≤ 2 ^ 63 then some (-(m : Int)) else none
  | _ =>
    match decDigitsVal s with
    | none => none
    | some m => if (m : Int) ≤ int64Max then some (m : Int) else none

/-- Big-endian decimal digits of `n` (empty for `0`); the first argument is
fuel, always called with `fuel ≥ n` so the recursion `n → n / 10` is total. -/
def natDigitsAux : Nat → Nat → List Nat
  | 0, _ => []
  | fuel + 1, n => if n = 0 then [] else natDigitsAux fuel (n / 10) ++ [48 + n % 10]

/-- ASCII decimal form of a natural number (`strconv.AppendInt` for `n ≥ 0`). -/
def natDecimal (n : Nat) : List Nat :=
  if n = 0 then [48] else natDigitsAux n n

/-- ASCII decimal form of a Go `int64` (`strconv.FormatInt(n, 10)`). -/
def intDecimal (n : Int) : List Nat :=
  if n < 0 then 45 :: natDecimal n.natAbs else natDecimal n.toNat

/-! ## Parser (`pkg/redisproto/parser.go`) -/

/-- Parser state and limits (`redisproto.Parser`). -/
structure Parser where
  buf : List Nat
  maxBulkLen : Nat
  maxArrayLen : Nat
  maxDepth : Nat
deriving Repr, DecidableEq

/-- `redisproto.NewParser()`: empty buffer, default limits
(512 MiB bulk, 2^20 array elements, depth 64). -/
def NewParser : Parser :=
  { buf := [], maxBulkLen := 512 * 1048576, maxArrayLen := 1048576, maxDepth := 64 }

/-- Decode-error classification; each constructor carries the data Go
interpolates into the corresponding `fmt.Errorf` call in `parseAt`. -/
inductive ParseErr where
  | depthExceeded (maxDepth : Nat)
  | invalidInteger (line : List Nat)
  | invalidBulkLen (line : List Nat)
  | negativeBulkLen (n : Int)
  | bulkTooLong (n : Int) (limit : Nat)
  | missingBulkCRLF
  | invalidArrayLen (line : List Nat)
  | negativeArrayLen (n : Int)
  | arrayTooLong (n : Int) (limit : Nat)
  | unknownPrefix (b : Nat)
deriving Repr, DecidableEq

/-- Result of one decode attempt: the Go quadruple
`(Value, next, complete, err)` collapsed to its three reachable shapes. -/
inductive ParseResult where
  | ok (v : Value) (next : Nat)
  | incomplete
  | fail (e : ParseErr)
deriving Repr, DecidableEq

/-- Result of decoding a fixed number of array items. -/
inductive ItemsResult where
  | ok (vs : List Value) (next : Nat)
  | incomplete
  | fail (e : ParseErr)
deriving Repr, DecidableEq

/-- Index of the first `\r\n` pair in `l` (`bytes.Index(l, "\r\n")`). -/
def findCRLF : List Nat → Option Nat
  | [] => none
  | [_] => none
  | b :: c :: rest =>
    if b = 13 ∧ c = 10 then some 0 else (findCRLF (c :: rest)).map (· + 1)

/-- `readLine` of `parser.go`: the bytes strictly before the first CRLF at or
after `offset`, and the position just past that CRLF. -/
def readLine (data : List Nat) (offset : Nat) : Option (List Nat × Nat) :=
  if offset ≥ data.length then none
  else
    match findCRLF (data.drop offset) with
    | none => none
    | some i => some ((data.drop offset).take i, offset + i + 2)

/-- The `for i := 0; i < n; i++` child-decoding loop of the `*` case of
`parseAt`, abstracted over the single-child parser `step`. -/
def runItems (step : Nat → ParseResult) : Nat → Nat → List Value → ItemsResult
  | cursor, 0, acc => .ok acc cursor
  | cursor, count + 1, acc =>
    match step cursor with
    | .ok v next => runItems step next count (acc ++ [v])
    | .incomplete => .incomplete
    | .fail e => .fail e

/-- The body of `Parser.parseAt`, abstracted over the parser's three limit
fields (the parser's buffer is never consulted during a decode attempt, so
`parseAt` below factors through this by projection). -/
def parseAtCore (maxBulkLen maxArrayLen maxDepth : Nat) (data : List Nat) :
    Nat → Nat → ParseResult
  | 0, _ => .fail (.depthExceeded maxDepth)
  | gas + 1, offset =>
    if offset ≥ data.length then .incomplete
    else if data.getD offset 0 = 43 then
      match readLine data (offset + 1) with
      | none => .incomplete
      | some (line, next) => .ok (.simpleString line) next
    else if data.getD offset 0 = 45 then
      match readLine data (offset + 1) with
      | none => .incomplete
      | some (line, next) => .ok (.error line) next
    else if data.getD offset 0 = 58 then
      match readLine data (offset + 1) with
      | none => .incomplete
      | some (line, next) =>
        match parseInt64 line with
        | none => .fail (.invalidInteger line)
        | some n => .ok (.integer n) next
    else if data.getD offset 0 = 36 then
      match readLine data (offset + 1) with
      | none => .incomplete
      | some (line, next) =>
        match parseInt64 line with
        | none => .fail (.invalidBulkLen line)
        | some n =>
          if n = -1 then .ok .null next
          else if n < -1 then .fail (.negativeBulkLen n)
          else if n > (maxBulkLen : Int) then .fail (.bulkTooLong n maxBulkLen)
          else
            let need := next + n.toNat + 2
            if need > data.length then .incomplete
            else if data.getD (next + n.toNat) 0 = 13 ∧ data.getD (next + n.toNat + 1) 0 = 10 then
              .ok (.bulkString ((data.drop next).take n.toNat)) need
            else .fail .missingBulkCRLF
    else if data.getD offset 0 = 42 then
      match readLine data (offset + 1) with
      | none => .incomplete
      | some (line, next) =>
        match parseInt64 line with
        | none => .fail (.invalidArrayLen line)
        | some n =>
          if n < 0 then .fail (.negativeArrayLen n)
          else if n > (maxArrayLen : Int) then .fail (.arrayTooLong n maxArrayLen)
          else
            match runItems (fun cur => parseAtCore maxBulkLen maxArrayLen maxDepth data gas cur)
                next n.toNat [] with
            | .ok vs fin => .ok (.array vs) fin
            | .incomplete => .incomplete
            | .fail e => .fail e
    else .fail (.unknownPrefix (data.getD offset 0))

/-- `Parser.parseAt(data, offset, depth)`.  The Go `depth` argument is
replaced by the remaining-depth budget `gas := p.maxDepth + 1 - depth`: Go's
entry check `depth > p.maxDepth` fires exactly when `gas = 0` (top-level
calls use `depth = 0`, i.e. `gas = p.maxDepth + 1`, and each array child
decrements `gas` as Go increments `depth`). -/
def parseAt (p : Parser) (data : List Nat) (gas offset : Nat) : ParseResult :=
  parseAtCore p.maxBulkLen p.maxArrayLen p.maxDepth data gas offset

/-- Result of `Feed`'s decode loop: either the decoded frames and the final
offset, or the first decode error. -/
inductive LoopResult where
  | done (vs : List Value) (offset : Nat)
  | fail (e : ParseErr)
deriving Repr, DecidableEq

/-- The `for offset < len(p.buf)` loop of `Parser.Feed`, abstracted over
the limits like `parseAtCore`, with explicit fuel.  `Feed` supplies
`fuel = data.length + 1`, which is sufficient because each completed frame
advances the offset (`parseAt_progress`); the fuel-exhausted case mirrors
the loop's incomplete break and is never reached from `Feed`. -/
def feedLoopCore (maxBulkLen maxArrayLen maxDepth : Nat) (data : List Nat) :
    Nat → Nat → List Value → LoopResult
  | 0, offset, acc => .done acc offset
  | fuel + 1, offset, acc =>
    if offset < data.length then
      match parseAtCore maxBulkLen maxArrayLen maxDepth data (maxDepth + 1) offset with
      | .fail e => .fail e
      | .incomplete => .done acc offset
      | .ok v next => feedLoopCore maxBulkLen maxArrayLen maxDepth data fuel next (acc ++ [v])
    else .done acc offset

/-- The decode loop of `Parser.Feed` over a parser value. -/
def feedLoop (p : Parser) (data : List Nat) (fuel offset : Nat) (acc : List Value) :
    LoopResult :=
  feedLoopCore p.maxBulkLen p.maxArrayLen p.maxDepth data fuel offset acc

/-- `Parser.Feed(in)`: append input to the buffer, decode as many complete
frames as possible, keep the unconsumed tail.  Returns the decoded frames
together with `none`, or `[]` together with the decode error (in which case
the buffer is cleared). -/
def Feed (p : Parser) (input : List Nat) : (List Value × Option ParseErr) × Parser :=
  let buf := p.buf ++ input
  if buf.isEmpty then (([], none), { p with buf := [] })
  else
    match feedLoop p buf (buf.length + 1) 0 [] with
    | .fail e => (([], some e), { p with buf := [] })
    | .done vs offset => ((vs, none), { p with buf := buf.drop offset })

/-- Feed a list of chunks through successive `Feed` calls, concatenating the
decoded frames of every call and collecting the decode errors in order. -/
def feedList (p : Parser) : List (List Nat) → (List Value × List ParseErr) × Parser
  | [] => (([], []), p)
  | c :: cs =>
    match Feed p c with
    | ((vs, e), p1) =>
      match feedList p1 cs with
      | ((vs2, es), p2) => ((vs ++ vs2, e.toList ++ es), p2)

/-! ## Encoder (`encode.go`, `value.go`) -/

/-- `hasRESPNewline` of `value.go`: does the payload contain a CR or LF byte? -/
def hasRESPNewline (s : List Nat) : Bool :=
  s.any fun b => b = 13 || b = 10

/-- Encode-time fault (`value.go`'s `validateForEncode` errors).  The Go
`default: unsupported kind` branch is unreachable for values built from the
six declared kinds, which is all this model represents. -/
inductive EncodeErr where
  | inlineCRLF (kindName : String)
deriving Repr, DecidableEq

/-- `Value.validateForEncode`: `SimpleString`/`Error` payloads must not
contain CR or LF. -/
def validateForEncode : Value → Option EncodeErr
  | .simpleString s => if hasRESPNewline s then some (.inlineCRLF "simple_string") else none
  | .error s => if hasRESPNewline s then some (.inlineCRLF "error") else none
  | _ => none

mutual
/-- `AppendEncode(dst, v)`: validate, then append the RESP2 serialization. -/
def AppendEncode : List Nat → Value → Except EncodeErr (List Nat)
  | dst, v =>
    match validateForEncode v with
    | some e => .error e
    | none =>
      match v with
      | .simpleString s => .ok (dst ++ [43] ++ s ++ [13, 10])
      | .error s => .ok (dst ++ [45] ++ s ++ [13, 10])
      | .integer n => .ok (dst ++ [58] ++ intDecimal n ++ [13, 10])
      | .bulkString b => .ok (dst ++ [36] ++ natDecimal b.length ++ [13, 10] ++ b ++ [13, 10])
      | .array a => encodeItems (dst ++ [42] ++ natDecimal a.length ++ [13, 10]) a
      | .null => .ok (dst ++ [36, 45, 49, 13, 10])

/-- The child-encoding loop of the array case of `AppendEncode`. -/
def encodeItems : List Nat → List Value → Except EncodeErr (List Nat)
  | dst, [] => .ok dst
  | dst, v :: rest =>
    match AppendEncode dst v with
    | .error e => .error e
    | .ok dst2 => encodeItems dst2 rest
end

/-- `Encode(v) = AppendEncode(nil, v)`. -/
def Encode (v : Value) : Except EncodeErr (List Nat) :=
  AppendEncode [] v

/-! ## Store (`pkg/redismvp/store.go`).  The Go store is a mutex-guarded
`map[string][]byte`; each operation runs under one lock acquisition, so its
sequential semantics is a pure map transformer. -/

/-- Key/value table: total map from key bytes to optional value bytes. -/
def Store := List Nat → Option (List Nat)

/-- `NewStore()`: the empty table. -/
def NewStore : Store := fun _ => none

/-- `Store.Get`. -/
def Store.get (s : Store) (k : List Nat) : Option (List Nat) := s k

/-- `Store.Set`. -/
def Store.set (s : Store) (k v : List Nat) : Store :=
  fun k2 => if k2 = k then some v else s k2

/-- Remove one key. -/
def Store.remove (s : Store) (k : List Nat) : Store :=
  fun k2 => if k2 = k then none else s k2

/-- `Store.Del(keys...)`: delete each listed key, counting those present. -/
def Store.del (s : Store) : List (List Nat) → Int × Store
  | [] => (0, s)
  | k :: rest =>
    match s k with
    | some _ =>
      match Store.del (s.remove k) rest with
      | (c, s2) => (c + 1, s2)
    | none => Store.del s rest

/-- Result of `Store.Incr`: the new value, or the
`errValueNotInteger` error. -/
inductive IncrResult where
  | ok (n : Int)
  | notInteger
deriving Repr, DecidableEq

/-- `Store.Incr(key)`: absent keys are stored as `"1"` and `1` is returned;
otherwise the stored bytes are parsed with `strconv.ParseInt(_, 10, 64)`,
failing with `errValueNotInteger` (no mutation) if that fails, else the Go
`int64` increment `n++` (two's-complement wrap-around) is stored in decimal
text form and returned. -/
def Store.Incr (s : Store) (k : List Nat) : IncrResult × Store :=
  match s k with
  | none => (.ok 1, s.set k [49])
  | some raw =>
    match parseInt64 raw with
    | none => (.notInteger, s)
    | some n =>
      let n2 := wrap64 (n + 1)
      (.ok n2, s.set k (intDecimal n2))

/-! ## Connection reactor (`pkg/redismvp/server.go`) -/

/-- ASCII bytes of a Lean string literal (all literals used are ASCII). -/
def strBytes (s : String) : List Nat := s.data.map Char.toNat

/-- `xev.Action` returned by completion callbacks. -/
inductive Action where
  | Continue
  | Stop
deriving Repr, DecidableEq

/-- `tokenBytes`: the byte payload of a `BulkString` or `SimpleString`
command token. -/
def tokenBytes : Value → Option (List Nat)
  | .bulkString b => some b
  | .simpleString s => some s
  | _ => none

/-- `tokenString`: same tokens as `tokenBytes`, converted to a Go string;
strings are byte lists in this model, so the payload is returned as-is. -/
def tokenString : Value → Option (List Nat)
  | .bulkString b => some b
  | .simpleString s => some s
  | _ => none

/-- `commandIs(token, name)`: length equality plus per-byte comparison after
ASCII-uppercasing the token byte. -/
def commandIs (token : List Nat) (name : String) : Bool :=
  let nb := strBytes name
  token.length == nb.length &&
    (List.zip token nb).all fun bc =>
      (if 97 ≤ bc.1 ∧ bc.1 ≤ 122 then bc.1 - 32 else bc.1) == bc.2

/-- ASCII lowercase of one byte (`strings.ToLower` restricted to ASCII; the
commands dispatched here are ASCII). -/
def lowerByte (b : Nat) : Nat :=
  if 65 ≤ b ∧ b ≤ 90 then b + 32 else b

/-- `appendSimple`. -/
def appendSimple (dst s : List Nat) : List Nat := dst ++ [43] ++ s ++ [13, 10]

/-- `appendError` (the reply-buffer helper of `server.go`). -/
def appendErrorReply (dst s : List Nat) : List Nat := dst ++ [45] ++ s ++ [13, 10]

/-- `appendBulk`. -/
def appendBulk (dst b : List Nat) : List Nat :=
  dst ++ [36] ++ natDecimal b.length ++ [13, 10] ++ b ++ [13, 10]

/-- `appendNull` (`$-1\r\n`). -/
def appendNull (dst : List Nat) : List Nat := dst ++ [36, 45, 49, 13, 10]

/-- `appendInteger`. -/
def appendIntegerReply (dst : List Nat) (n : Int) : List Nat :=
  dst ++ [58] ++ intDecimal n ++ [13, 10]

/-- `appendWrongArity(dst, cmd)`: the fixed arity-error reply; byte 39 is the
ASCII single-quote around the command name. -/
def appendWrongArity (dst : List Nat) (cmd : String) : List Nat :=
  appendErrorReply dst
    (strBytes "ERR wrong number of arguments for " ++ [39] ++ strBytes cmd ++ [39] ++
      strBytes " command")

/-- The `ERR Protocol error: invalid command token kind %s` message. -/
def invalidTokenMsg (v : Value) : List Nat :=
  strBytes "ERR Protocol error: invalid command token kind " ++ strBytes v.kindName

/-- The key-collection loop of the `DEL` case: `tokenString` every argument,
reporting the first non-token argument. -/
def collectKeys : List Value → Except Value (List (List Nat))
  | [] => .ok []
  | v :: r =>
    match tokenString v with
    | none => .error v
    | some k =>
      match collectKeys r with
      | .error w => .error w
      | .ok ks => .ok (k :: ks)

/-- `clientConn.appendResponse(dst, frame)`: interpret one decoded frame as a
command against the store and append the encoded reply to `dst`; returns the
extended reply buffer and the updated store. -/
def appendResponse (dst : List Nat) (frame : Value) (s : Store) : List Nat × Store :=
  match frame with
  | .array [] => (appendErrorReply dst (strBytes "ERR Protocol error: empty command"), s)
  | .array (t0 :: args) =>
    match tokenBytes t0 with
    | none => (appendErrorReply dst (invalidTokenMsg t0), s)
    | some command =>
      if commandIs command "PING" then
        match args with
        | [] => (appendSimple dst (strBytes "PONG"), s)
        | [a1] =>
          match tokenBytes a1 with
          | none => (appendErrorReply dst (invalidTokenMsg a1), s)
          | some arg => (appendBulk dst arg, s)
        | _ => (appendWrongArity dst "ping", s)
      else if commandIs command "ECHO" then
        match args with
        | [a1] =>
          match tokenBytes a1 with
          | none => (appendErrorReply dst (invalidTokenMsg a1), s)
          | some arg => (appendBulk dst arg, s)
        | _ => (appendWrongArity dst "echo", s)
      else if commandIs command "SET" then
        match args with
        | [a1, a2] =>
          match tokenString a1 with
          | none => (appendErrorReply dst (invalidTokenMsg a1), s)
          | some key =>
            match tokenBytes a2 with
            | none => (appendErrorReply dst (invalidTokenMsg a2), s)
            | some value => (appendSimple dst (strBytes "OK"), s.set key value)
        | _ => (appendWrongArity dst "set", s)
      else if commandIs command "GET" then
        match args with
        | [a1] =>
          match tokenString a1 with
          | none => (appendErrorReply dst (invalidTokenMsg a1), s)
          | some key =>
            match s.get key with
            | none => (appendNull dst, s)
            | some v => (appendBulk dst v, s)
        | _ => (appendWrongArity dst "get", s)
      else if commandIs command "DEL" then
        match args with
        | [] => (appendWrongArity dst "del", s)
        | _ =>
          match collectKeys args with
          | .error w => (appendErrorReply dst (invalidTokenMsg w), s)
          | .ok keys =>
            match s.del keys with
            | (c, s2) => (appendIntegerReply dst c, s2)
      else if commandIs command "INCR" then
        match args with
        | [a1] =>
          match tokenString a1 with
          | none => (appendErrorReply dst (invalidTokenMsg a1), s)
          | some key =>
            match s.Incr key with
            | (.notInteger, s2) =>
              (appendErrorReply dst (strBytes "ERR value is not an integer or out of range"), s2)
            | (.ok n, s2) => (appendIntegerReply dst n, s2)
        | _ => (appendWrongArity dst "incr", s)
      else
        (appendErrorReply dst
          (strBytes "ERR unknown command " ++ [39] ++ command.map lowerByte ++ [39]), s)
  | _ => (appendErrorReply dst (strBytes "ERR Protocol error: command must be array"), s)

/-- The `for _, frame := range frames` reply-building loop of
`clientConn.onRead`. -/
def appendFrames : List Nat → List Value → Store → List Nat × Store
  | dst, [], s => (dst, s)
  | dst, f :: r, s =>
    match appendResponse dst f s with
    | (dst2, s2) => appendFrames dst2 r s2

/-- One hexadecimal digit (lowercase). -/
def hexDigit (n : Nat) : Nat := if n < 10 then 48 + n else 87 + n

/-- ASCII-oriented rendering of one byte under Go's `%q` string quoting:
quote, backslash, CR, LF and TAB are backslash-escaped, printable ASCII is
kept, anything else becomes `\xHH`.  (Go additionally special-cases a few
rare control escapes and multi-byte UTF-8 runes; no theorem here depends on
those bytes' exact rendering, only on the absence of raw CR/LF.) -/
def quoteByte (b : Nat) : List Nat :=
  if b = 34 then [92, 34]
  else if b = 92 then [92, 92]
  else if b = 13 then [92, 114]
  else if b = 10 then [92, 110]
  else if b = 9 then [92, 116]
  else if 32 ≤ b ∧ b ≤ 126 then [b]
  else [92, 120, hexDigit (b / 16 % 16), hexDigit (b % 16)]

/-- Go `%q` quoting of a byte string (ASCII-oriented, see `quoteByte`). -/
def goQuote (l : List Nat) : List Nat :=
  [34] ++ (l.map quoteByte).flatten ++ [34]

/-- `err.Error()` bytes for a decode error, following the `fmt.Errorf`
format strings of `parseAt` (the `: %w`-wrapped `strconv` error text is
abbreviated away; nothing downstream depends on it). -/
def errText : ParseErr → List Nat
  | .depthExceeded m => strBytes "array nesting exceeds max depth " ++ natDecimal m
  | .invalidInteger line => strBytes "invalid integer " ++ goQuote line
  | .invalidBulkLen line => strBytes "invalid bulk string length " ++ goQuote line
  | .negativeBulkLen n => strBytes "negative bulk string length: " ++ intDecimal n
  | .bulkTooLong n limit =>
    strBytes "bulk string length " ++ intDecimal n ++ strBytes " exceeds limit " ++
      natDecimal limit
  | .missingBulkCRLF => strBytes "bulk string missing CRLF terminator"
  | .invalidArrayLen line => strBytes "invalid array length " ++ goQuote line
  | .negativeArrayLen n => strBytes "negative array length: " ++ intDecimal n
  | .arrayTooLong n limit =>
    strBytes "array length " ++ intDecimal n ++ strBytes " exceeds limit " ++ natDecimal limit
  | .unknownPrefix b => strBytes "unknown RESP2 prefix byte " ++ goQuote [b]

/-- Per-connection reactor state (`clientConn`): the owned parser and the
closed flag.  `close()` additionally removes the connection from the
server's live registry and enqueues its descriptor for deferred close;
`closed = true` stands for that whole transition here. -/
structure ConnState where
  parser : Parser
  closed : Bool
deriving Repr

/-- `clientConn.close()`. -/
def ConnState.doClose (c : ConnState) : ConnState := { c with closed := true }

/-- Outcome of one read completion: the bytes handed to the synchronous
write (empty when no write is attempted), the returned `xev.Action`, and the
updated connection and store states. -/
structure ReadOutcome where
  wire : List Nat
  action : Action
  conn : ConnState
  store : Store

/-- `clientConn.writeSyncResponse(v)` wire bytes: `Encode(v)`, substituting
the generic internal-error reply if encoding fails. -/
def syncResponseWire (v : Value) : List Nat :=
  match Encode v with
  | .ok w => w
  | .error _ =>
    match Encode (.error (strBytes "ERR internal encode error")) with
    | .ok w => w
    | .error _ => []

/-- `clientConn.onRead(conn, data, err)`.  `readErr` is whether the read
completion reported an error; `writeOk` is whether the synchronous
`writeAll` of this completion's reply bytes succeeds (the write itself is
I/O, outside the model). -/
def onRead (c : ConnState) (s : Store) (data : List Nat) (readErr : Bool) (writeOk : Bool) :
    ReadOutcome :=
  if c.closed then ⟨[], .Stop, c, s⟩
  else if readErr then ⟨[], .Stop, c.doClose, s⟩
  else if data.isEmpty then ⟨[], .Stop, c.doClose, s⟩
  else
    match Feed c.parser data with
    | ((_frames, some e), p2) =>
      let wire := syncResponseWire (.error (strBytes "ERR Protocol error: " ++ errText e))
      let c2 := { c with parser := p2 }
      if writeOk then ⟨wire, .Continue, c2, s⟩
      else ⟨wire, .Stop, c2.doClose, s⟩
    | ((frames, none), p2) =>
      let c2 := { c with parser := p2 }
      if frames.isEmpty then ⟨[], .Continue, c2, s⟩
      else
        match appendFrames [] frames s with
        | (wire, s2) =>
          if writeOk then ⟨wire, .Continue, c2, s2⟩
          else ⟨wire, .Stop, c2.doClose, s2⟩

/-! ## Basic sanity checks mirroring the repository's own table tests -/

example :
    Feed NewParser (strBytes "+OK\r\n:123\r\n$3\r\nfoo\r\n") =
      (([.simpleString (strBytes "OK"), .integer 123, .bulkString (strBytes "foo")], none),
        { NewParser with buf := [] }) := by decide

example :
    Feed NewParser (strBytes "*4\r\n$3\r\nGET\r\n$3\r\nkey\r\n$-1\r\n:1\r\n") =
      (([.array [.bulkString (strBytes "GET"), .bulkString (strBytes "key"), .null,
          .integer 1]], none), { NewParser with buf := [] }) := by decide

example : (Feed NewParser (strBytes "!oops\r\n")).1.2 = some (.unknownPrefix 33) := by decide

example : (Feed NewParser (strBytes "$-2\r\n")).1.2 = some (.negativeBulkLen (-2)) := by decide

example : (Feed NewParser (strBytes "*-2\r\n")).1.2 = some (.negativeArrayLen (-2)) := by decide

example : (Feed NewParser (strBytes ":1x\r\n")).1.2 =
    some (.invalidInteger (strBytes "1x")) := by decide

example : Feed NewParser (strBytes "$3\r\nfo") =
    (([], none), { NewParser with buf := strBytes "$3\r\nfo" }) := by decide

example : (Feed NewParser (strBytes "$3\r\nfooxx")).1.2 = some .missingBulkCRLF := by decide

example : Encode (.simpleString (strBytes "OK")) = .ok (strBytes "+OK\r\n") := by decide

example : Encode (.integer (-2)) = .ok (strBytes ":-2\r\n") := by decide

example : Encode (.array [.bulkString (strBytes "PING"), .bulkString (strBytes "x")]) =
    .ok (strBytes "*2\r\n$4\r\nPING\r\n$1\r\nx\r\n") := by decide

example : Encode (.null) = .ok (strBytes "$-1\r\n") := by decide

example : (Encode (.simpleString (strBytes "bad\r\nvalue"))).isOk = false := by decide

example :
    (appendResponse [] (.array [.bulkString (strBytes "PING")]) NewStore).1 =
      strBytes "+PONG\r\n" := by decide

example :
    (appendResponse [] (.array [.bulkString (strBytes "ping"), .bulkString (strBytes "a"),
      .bulkString (strBytes "b")]) NewStore).1 =
      strBytes "-ERR wrong number of arguments for " ++ [39] ++ strBytes "ping" ++ [39] ++
        strBytes " command\r\n" := by decide

/-! ## Helper lemmas: integer parsing bounds and wrap-around -/

theorem int64Min_lit : int64Min = -9223372036854775808 := by decide
theorem int64Max_lit : int64Max = 9223372036854775807 := by decide

theorem parseInt64_range {s : List Nat} {n : Int} (h : parseInt64 s = some n) :
    int64Min ≤ n ∧ n ≤ int64Max := by
  have h63 : ((2:Int) ^ 63) = 9223372036854775808 := by norm_num
  rw [int64Min_lit, int64Max_lit]
  unfold parseInt64 at h
  split at h
  · split at h
    · exact absurd h (by simp)
    · split at h
      · rename_i m hle
        rw [int64Max_lit] at hle
        injection h with h2
        omega
      · exact absurd h (by simp)
  · split at h
    · exact absurd h (by simp)
    · split at h
      · rename_i m hle
        rw [h63] at hle
        injection h with h2
        omega
      · exact absurd h (by simp)
  · split at h
    · exact absurd h (by simp)
    · split at h
      · rename_i m hle
        rw [int64Max_lit] at hle
        injection h with h2
        omega
      · exact absurd h (by simp)

theorem wrap64_fixed {x : Int} (h1 : int64Min ≤ x) (h2 : x ≤ int64Max) : wrap64 x = x := by
  rw [int64Min_lit] at h1
  rw [int64Max_lit] at h2
  unfold wrap64
  have h63 : ((2:Int) ^ 63) = 9223372036854775808 := by norm_num
  have h64 : ((2:Int) ^ 64) = 18446744073709551616 := by norm_num
  rw [h63, h64, Int.emod_eq_of_lt (by omega) (by omega)]
  omega

/-! ## C9: a decode error in `Feed` discards every frame decoded earlier in
the same call and clears the buffer -/

/-- C9: whenever `Parser.Feed` returns a decode error, the returned frame
list is nil and the parser buffer has been cleared — in particular any
complete frames decoded earlier in the same call are discarded and never
delivered to the caller. -/
theorem feed_error_returns_nil_and_clears (p : Parser) (input : List Nat) (e : ParseErr)
    (h : (Feed p input).1.2 = some e) :
    (Feed p input).1.1 = [] ∧ (Feed p input).2.buf = [] := by
  cases hE : (p.buf ++ input).isEmpty with
  | true => simp [Feed, hE] at h
  | false =>
    cases hl : feedLoop p (p.buf ++ input) ((p.buf ++ input).length + 1) 0 [] with
    | done vs off =>
      simp only [Feed] at h
      rw [hE, hl] at h
      simp at h
    | fail e2 =>
      simp only [Feed]
      rw [hE, hl]
      simp

/-- Witness for C9: the input `+OK\r\n!x\r\n` holds one complete well-formed
frame followed by a malformed one; `Feed` returns nil frames and an empty
buffer. -/
theorem feed_error_returns_nil_and_clears_witness :
    (Feed NewParser (strBytes "+OK\r\n!x\r\n")).1.1 = [] ∧
    (Feed NewParser (strBytes "+OK\r\n!x\r\n")).2.buf = [] :=
  feed_error_returns_nil_and_clears NewParser (strBytes "+OK\r\n!x\r\n")
    (.unknownPrefix 33) (by decide)

/-! ## C10: `Incr` at the maximum `int64` wraps -/

/-- C10: `Incr` on a key holding the decimal text of the maximum signed
64-bit integer succeeds, wrapping in two's complement: it returns
`-9223372036854775808` and stores that value's decimal text; no
out-of-range condition is reported. -/
theorem incr_wraps_at_int64_max (s : Store) (k : List Nat)
    (h : s k = some (strBytes "9223372036854775807")) :
    Store.Incr s k =
      (.ok (-9223372036854775808), s.set k (strBytes "-9223372036854775808")) := by
  have h1 : parseInt64 (strBytes "9223372036854775807") = some 9223372036854775807 := by
    decide
  have h2 : wrap64 (9223372036854775807 + 1) = -9223372036854775808 := by decide
  have h3 : intDecimal (-9223372036854775808) = strBytes "-9223372036854775808" := by decide
  unfold Store.Incr
  rw [h]
  dsimp only
  rw [h1]
  dsimp only
  rw [h2, h3]

/-- Witness for C10 at a concrete one-key store. -/
theorem incr_wraps_at_int64_max_witness :
    Store.Incr (NewStore.set (strBytes "c") (strBytes "9223372036854775807"))
        (strBytes "c") =
      (.ok (-9223372036854775808),
        (NewStore.set (strBytes "c") (strBytes "9223372036854775807")).set (strBytes "c")
          (strBytes "-9223372036854775808")) :=
  incr_wraps_at_int64_max _ _ (by decide)

/-! ## C5: `Incr` semantics -/

/-- Counterexample for C5 as stated: with the key holding the decimal text
of `2^63 - 1` (which parses as a base-10 signed 64-bit integer
`n = 9223372036854775807`), `Incr` does not return `n + 1`. -/
theorem incr_plus_one_counterexample :
    parseInt64 (strBytes "9223372036854775807") = some 9223372036854775807 ∧
    (Store.Incr (NewStore.set (strBytes "k") (strBytes "9223372036854775807"))
        (strBytes "k")).1 ≠ .ok (9223372036854775807 + 1) := by
  constructor
  · decide
  · decide

/-- C5 (amended): `Incr` with the key absent stores `"1"` and returns 1;
with the key present and parsing as int64 `n` it stores and returns the
two's-complement increment `wrap64 (n+1)`, which equals `n + 1` in all
cases except `n = 2^63 - 1`; with the key present but unparsable it
returns the not-an-integer error. -/
theorem incr_semantics (s : Store) (k : List Nat) :
    (s k = none → Store.Incr s k = (.ok 1, s.set k (strBytes "1"))) ∧
    (∀ raw n, s k = some raw → parseInt64 raw = some n →
      Store.Incr s k =
        (.ok (wrap64 (n + 1)), s.set k (intDecimal (wrap64 (n + 1)))) ∧
      (n ≠ int64Max → wrap64 (n + 1) = n + 1)) ∧
    (∀ raw, s k = some raw → parseInt64 raw = none →
      Store.Incr s k = (.notInteger, s)) := by
  refine ⟨fun h => ?_, fun raw n hraw hn => ⟨?_, fun hne => ?_⟩, fun raw hraw hn => ?_⟩
  · unfold Store.Incr
    rw [h]
    rfl
  · unfold Store.Incr
    rw [hraw]
    dsimp only
    rw [hn]
  · have hr := parseInt64_range hn
    apply wrap64_fixed
    · rw [int64Min_lit] at *
      rw [int64Max_lit] at *
      omega
    · rw [int64Max_lit] at *
      omega
  · unfold Store.Incr
    rw [hraw]
    dsimp only
    rw [hn]

/-- Witness for C5 (amended) at concrete stores: a fresh key returns 1, a
key holding `"41"` returns 42 and re-stores `"42"`, and a key holding
`"abc"` reports not-an-integer. -/
theorem incr_semantics_witness :
    Store.Incr NewStore (strBytes "k") = (.ok 1, NewStore.set (strBytes "k") (strBytes "1")) ∧
    (Store.Incr (NewStore.set (strBytes "k") (strBytes "41")) (strBytes "k")).1 = .ok 42 ∧
    (Store.Incr (NewStore.set (strBytes "k") (strBytes "abc")) (strBytes "k")).1 =
      .notInteger := by
  refine ⟨(incr_semantics NewStore (strBytes "k")).1 rfl, ?_, ?_⟩
  · have h := ((incr_semantics (NewStore.set (strBytes "k") (strBytes "41"))
      (strBytes "k")).2.1 (strBytes "41") 41 (by decide) (by decide)).1
    rw [h]
    decide
  · have h := (incr_semantics (NewStore.set (strBytes "k") (strBytes "abc"))
      (strBytes "k")).2.2 (strBytes "abc") (by decide) (by decide)
    rw [h]

/-! ## C6: failed `Incr` mutates nothing and maps to the fixed reply -/

/-- C6: when the stored bytes at `key` do not parse as a base-10 signed
64-bit integer, `Incr` returns the not-an-integer error and leaves the
whole key/value mapping unchanged (pointwise), and `appendResponse` on an
`INCR key` command maps this to the reply
`-ERR value is not an integer or out of range\r\n` with the store still
unchanged. -/
theorem incr_not_integer_no_mutation (s : Store) (k raw : List Nat)
    (hraw : s k = some raw) (hn : parseInt64 raw = none) :
    Store.Incr s k = (.notInteger, s) ∧
    (∀ k2, (Store.Incr s k).2 k2 = s k2) ∧
    (∀ dst, appendResponse dst (.array [.bulkString (strBytes "INCR"), .bulkString k]) s =
      (appendErrorReply dst (strBytes "ERR value is not an integer or out of range"), s)) := by
  have hincr : Store.Incr s k = (.notInteger, s) := by
    unfold Store.Incr
    rw [hraw]
    dsimp only
    rw [hn]
  refine ⟨hincr, fun k2 => by rw [hincr], fun dst => ?_⟩
  have hred : appendResponse dst (.array [.bulkString (strBytes "INCR"), .bulkString k]) s =
      (match Store.Incr s k with
        | (.notInteger, s2) =>
          (appendErrorReply dst (strBytes "ERR value is not an integer or out of range"), s2)
        | (.ok n, s2) => (appendIntegerReply dst n, s2)) := rfl
  rw [hred, hincr]

/-- Witness for C6 at a concrete store holding `"abc"`. -/
theorem incr_not_integer_no_mutation_witness :
    ((Store.Incr (NewStore.set (strBytes "x") (strBytes "abc")) (strBytes "x")).1 =
      .notInteger) ∧
    (appendResponse [] (.array [.bulkString (strBytes "INCR"), .bulkString (strBytes "x")])
        (NewStore.set (strBytes "x") (strBytes "abc"))).1 =
      appendErrorReply [] (strBytes "ERR value is not an integer or out of range") := by
  have h := incr_not_integer_no_mutation (NewStore.set (strBytes "x") (strBytes "abc"))
    (strBytes "x") (strBytes "abc") (by decide) (by decide)
  exact ⟨by rw [h.1], by rw [h.2.2 []]⟩

/-! ## C4: bulk-string decode cases -/

/-- Unfolding of the `$` branch of `parseAt` once the header line has been
read and its decimal value computed. -/
theorem parseAt_bulk_unfold (p : Parser) (data : List Nat) (offset gas : Nat)
    (line : List Nat) (next : Nat) (n : Int)
    (hoff : offset < data.length)
    (hb : data.getD offset 0 = 36)
    (hline : readLine data (offset + 1) = some (line, next))
    (hn : parseInt64 line = some n) :
    parseAt p data (gas + 1) offset =
      (if n = -1 then .ok .null next
       else if n < -1 then .fail (.negativeBulkLen n)
       else if n > (p.maxBulkLen : Int) then .fail (.bulkTooLong n p.maxBulkLen)
       else if next + n.toNat + 2 > data.length then .incomplete
       else if data.getD (next + n.toNat) 0 = 13 ∧ data.getD (next + n.toNat + 1) 0 = 10 then
         .ok (.bulkString ((data.drop next).take n.toNat)) (next + n.toNat + 2)
       else .fail .missingBulkCRLF) := by
  simp only [parseAt, parseAtCore]
  rw [if_neg (by omega), hb, hline]
  dsimp only
  rw [hn]
  norm_num

/-- C4: decoding a `$`-headed frame whose CRLF-terminated header parses as
the decimal integer `n` behaves as follows: `n = -1` yields `Null`;
`n < -1` is malformed; `n` above the configured max bulk length is
malformed; otherwise with fewer than `n + 2` bytes after the header the
attempt is incomplete (no error, nothing consumed); with enough bytes but
no CRLF right after the `n` payload bytes the frame is malformed; and on
success the result is a `BulkString` of exactly those `n` payload bytes
with header, payload and terminator consumed (`next + n + 2`). -/
theorem bulk_string_decode_cases (p : Parser) (data : List Nat) (offset gas : Nat)
    (line : List Nat) (next : Nat) (n : Int)
    (hoff : offset < data.length)
    (hb : data.getD offset 0 = 36)
    (hline : readLine data (offset + 1) = some (line, next))
    (hn : parseInt64 line = some n) :
    (n = -1 → parseAt p data (gas + 1) offset = .ok .null next) ∧
    (n < -1 → parseAt p data (gas + 1) offset = .fail (.negativeBulkLen n)) ∧
    (0 ≤ n → n > (p.maxBulkLen : Int) →
      parseAt p data (gas + 1) offset = .fail (.bulkTooLong n p.maxBulkLen)) ∧
    (0 ≤ n → n ≤ (p.maxBulkLen : Int) →
      ((data.length < next + n.toNat + 2 → parseAt p data (gas + 1) offset = .incomplete) ∧
       (next + n.toNat + 2 ≤ data.length →
         (data.getD (next + n.toNat) 0 = 13 → data.getD (next + n.toNat + 1) 0 = 10 →
           parseAt p data (gas + 1) offset =
             .ok (.bulkString ((data.drop next).take n.toNat)) (next + n.toNat + 2)) ∧
         (¬(data.getD (next + n.toNat) 0 = 13 ∧ data.getD (next + n.toNat + 1) 0 = 10) →
           parseAt p data (gas + 1) offset = .fail .missingBulkCRLF)))) := by
  have hu := parseAt_bulk_unfold p data offset gas line next n hoff hb hline hn
  refine ⟨fun h1 => ?_, fun h2 => ?_, fun h3 h4 => ?_,
    fun h5 h6 => ⟨fun h7 => ?_, fun h8 => ⟨fun h9 h10 => ?_, fun h11 => ?_⟩⟩⟩
  · rw [hu, if_pos h1]
  · rw [hu, if_neg (by omega), if_pos h2]
  · rw [hu, if_neg (by omega), if_neg (by omega), if_pos h4]
  · rw [hu, if_neg (by omega), if_neg (by omega), if_neg (by omega), if_pos (by omega)]
  · rw [hu, if_neg (by omega), if_neg (by omega), if_neg (by omega), if_neg (by omega),
      if_pos ⟨h9, h10⟩]
  · rw [hu, if_neg (by omega), if_neg (by omega), if_neg (by omega), if_neg (by omega),
      if_neg h11]

/-- Witness for C4: `$3\r\nfoo\r\n` decodes to the 3-byte bulk string with
header, payload and terminator consumed. -/
theorem bulk_string_decode_cases_witness :
    parseAt NewParser (strBytes "$3\r\nfoo\r\n") (64 + 1) 0 =
      .ok (.bulkString (((strBytes "$3\r\nfoo\r\n").drop 4).take (Int.toNat 3)))
        (4 + Int.toNat 3 + 2) :=
  (((bulk_string_decode_cases NewParser (strBytes "$3\r\nfoo\r\n") 0 64 (strBytes "3") 4 3
      (by decide) (by decide) (by decide) (by decide)).2.2.2 (by decide)
      (by decide)).2 (by decide)).1 (by decide) (by decide)

/-! ## C7: wrong-arity replies and command errors never closing -/

/-- ASCII uppercase of one byte (the folding `commandIs` applies). -/
def upperByte (b : Nat) : Nat := if 97 ≤ b ∧ b ≤ 122 then b - 32 else b

theorem commandIs_iff (cb : List Nat) (name : String) :
    commandIs cb name = true ↔ cb.map upperByte = strBytes name := by
  unfold commandIs
  generalize strBytes name = nb
  induction cb generalizing nb with
  | nil => cases nb <;> simp
  | cons b r ih =>
    cases nb with
    | nil => simp
    | cons c s =>
      simp only [List.length_cons, List.zip_cons_cons, List.all_cons, List.map_cons,
        Bool.and_eq_true, beq_iff_eq, List.cons.injEq, upperByte, Nat.add_right_cancel_iff]
      rw [← ih s]
      simp only [Bool.and_eq_true, beq_iff_eq]
      tauto

/-- Two different command names cannot both match one token. -/
theorem commandIs_excl {cb : List Nat} {x y : String} (hx : commandIs cb x = true)
    (hne : strBytes x ≠ strBytes y) : commandIs cb y = false := by
  rw [commandIs_iff] at hx
  rcases hy : commandIs cb y with _ | _
  · rfl
  · rw [commandIs_iff] at hy
    exact absurd (hx ▸ hy) hne

/-- The `PING` branch of the dispatch switch. -/
def pingCase (dst : List Nat) (args : List Value) (s : Store) : List Nat × Store :=
  match args with
  | [] => (appendSimple dst (strBytes "PONG"), s)
  | [a1] =>
    match tokenBytes a1 with
    | none => (appendErrorReply dst (invalidTokenMsg a1), s)
    | some arg => (appendBulk dst arg, s)
  | _ => (appendWrongArity dst "ping", s)

/-- The `ECHO` branch of the dispatch switch. -/
def echoCase (dst : List Nat) (args : List Value) (s : Store) : List Nat × Store :=
  match args with
  | [a1] =>
    match tokenBytes a1 with
    | none => (appendErrorReply dst (invalidTokenMsg a1), s)
    | some arg => (appendBulk dst arg, s)
  | _ => (appendWrongArity dst "echo", s)

/-- The `SET` branch of the dispatch switch. -/
def setCase (dst : List Nat) (args : List Value) (s : Store) : List Nat × Store :=
  match args with
  | [a1, a2] =>
    match tokenString a1 with
    | none => (appendErrorReply dst (invalidTokenMsg a1), s)
    | some key =>
      match tokenBytes a2 with
      | none => (appendErrorReply dst (invalidTokenMsg a2), s)
      | some value => (appendSimple dst (strBytes "OK"), s.set key value)
  | _ => (appendWrongArity dst "set", s)

/-- The `GET` branch of the dispatch switch. -/
def getCase (dst : List Nat) (args : List Value) (s : Store) : List Nat × Store :=
  match args with
  | [a1] =>
    match tokenString a1 with
    | none => (appendErrorReply dst (invalidTokenMsg a1), s)
    | some key =>
      match s.get key with
      | none => (appendNull dst, s)
      | some v => (appendBulk dst v, s)
  | _ => (appendWrongArity dst "get", s)

/-- The `DEL` branch of the dispatch switch. -/
def delCase (dst : List Nat) (args : List Value) (s : Store) : List Nat × Store :=
  match args with
  | [] => (appendWrongArity dst "del", s)
  | _ =>
    match collectKeys args with
    | .error w => (appendErrorReply dst (invalidTokenMsg w), s)
    | .ok keys =>
      match s.del keys with
      | (c, s2) => (appendIntegerReply dst c, s2)

/-- The `INCR` branch of the dispatch switch. -/
def incrCase (dst : List Nat) (args : List Value) (s : Store) : List Nat × Store :=
  match args with
  | [a1] =>
    match tokenString a1 with
    | none => (appendErrorReply dst (invalidTokenMsg a1), s)
    | some key =>
      match s.Incr key with
      | (.notInteger, s2) =>
        (appendErrorReply dst (strBytes "ERR value is not an integer or out of range"), s2)
      | (.ok n, s2) => (appendIntegerReply dst n, s2)
  | _ => (appendWrongArity dst "incr", s)

/-- The command-dispatch `switch` body of `appendResponse`, factored over
the first token's payload bytes.  `appendResponse` on an array frame whose
head is a `BulkString` or `SimpleString` token reduces definitionally to
this (`appendResponse_eq_dispatch_bulk`/`_simple`). -/
def dispatchCommand (dst : List Nat) (command : List Nat) (args : List Value) (s : Store) :
    List Nat × Store :=
  if commandIs command "PING" then pingCase dst args s
  else if commandIs command "ECHO" then echoCase dst args s
  else if commandIs command "SET" then setCase dst args s
  else if commandIs command "GET" then getCase dst args s
  else if commandIs command "DEL" then delCase dst args s
  else if commandIs command "INCR" then incrCase dst args s
  else
    (appendErrorReply dst
      (strBytes "ERR unknown command " ++ [39] ++ command.map lowerByte ++ [39]), s)

theorem appendResponse_eq_dispatch_bulk (dst cb : List Nat) (args : List Value) (s : Store) :
    appendResponse dst (.array (.bulkString cb :: args)) s = dispatchCommand dst cb args s :=
  rfl

theorem appendResponse_eq_dispatch_simple (dst cb : List Nat) (args : List Value) (s : Store) :
    appendResponse dst (.array (.simpleString cb :: args)) s = dispatchCommand dst cb args s :=
  rfl

theorem dispatch_wrong_arity (dst cb : List Nat) (args : List Value) (s : Store) :
    (commandIs cb "PING" = true → 2 ≤ args.length →
      dispatchCommand dst cb args s = (appendWrongArity dst "ping", s)) ∧
    (commandIs cb "ECHO" = true → args.length ≠ 1 →
      dispatchCommand dst cb args s = (appendWrongArity dst "echo", s)) ∧
    (commandIs cb "SET" = true → args.length ≠ 2 →
      dispatchCommand dst cb args s = (appendWrongArity dst "set", s)) ∧
    (commandIs cb "GET" = true → args.length ≠ 1 →
      dispatchCommand dst cb args s = (appendWrongArity dst "get", s)) ∧
    (commandIs cb "DEL" = true → args = [] →
      dispatchCommand dst cb args s = (appendWrongArity dst "del", s)) ∧
    (commandIs cb "INCR" = true → args.length ≠ 1 →
      dispatchCommand dst cb args s = (appendWrongArity dst "incr", s)) := by
  refine ⟨fun hc hlen => ?_, fun hc hlen => ?_, fun hc hlen => ?_, fun hc hlen => ?_,
    fun hc hargs => ?_, fun hc hlen => ?_⟩
  · rcases args with _ | ⟨a, _ | ⟨b, t⟩⟩
    · simp at hlen
    · simp at hlen
    · simp [dispatchCommand, pingCase, hc]
  · have h1 := commandIs_excl hc (x := "ECHO") (y := "PING") (by decide)
    rcases args with _ | ⟨a, _ | ⟨b, t⟩⟩
    · simp [dispatchCommand, echoCase, hc, h1]
    · simp at hlen
    · simp [dispatchCommand, echoCase, hc, h1]
  · have h1 := commandIs_excl hc (x := "SET") (y := "PING") (by decide)
    have h2 := commandIs_excl hc (x := "SET") (y := "ECHO") (by decide)
    rcases args with _ | ⟨a, _ | ⟨b, _ | ⟨c, t⟩⟩⟩
    · simp [dispatchCommand, setCase, hc, h1, h2]
    · simp [dispatchCommand, setCase, hc, h1, h2]
    · simp at hlen
    · simp [dispatchCommand, setCase, hc, h1, h2]
  · have h1 := commandIs_excl hc (x := "GET") (y := "PING") (by decide)
    have h2 := commandIs_excl hc (x := "GET") (y := "ECHO") (by decide)
    have h3 := commandIs_excl hc (x := "GET") (y := "SET") (by decide)
    rcases args with _ | ⟨a, _ | ⟨b, t⟩⟩
    · simp [dispatchCommand, getCase, hc, h1, h2, h3]
    · simp at hlen
    · simp [dispatchCommand, getCase, hc, h1, h2, h3]
  · have h1 := commandIs_excl hc (x := "DEL") (y := "PING") (by decide)
    have h2 := commandIs_excl hc (x := "DEL") (y := "ECHO") (by decide)
    have h3 := commandIs_excl hc (x := "DEL") (y := "SET") (by decide)
    have h4 := commandIs_excl hc (x := "DEL") (y := "GET") (by decide)
    subst hargs
    simp [dispatchCommand, delCase, hc, h1, h2, h3, h4]
  · have h1 := commandIs_excl hc (x := "INCR") (y := "PING") (by decide)
    have h2 := commandIs_excl hc (x := "INCR") (y := "ECHO") (by decide)
    have h3 := commandIs_excl hc (x := "INCR") (y := "SET") (by decide)
    have h4 := commandIs_excl hc (x := "INCR") (y := "GET") (by decide)
    have h5 := commandIs_excl hc (x := "INCR") (y := "DEL") (by decide)
    rcases args with _ | ⟨a, _ | ⟨b, t⟩⟩
    · simp [dispatchCommand, incrCase, hc, h1, h2, h3, h4, h5]
    · simp at hlen
    · simp [dispatchCommand, incrCase, hc, h1, h2, h3, h4, h5]

/-- Read completions that decode successfully keep the connection open:
`onRead` returns `Continue` with the closed flag still false whenever the
read itself succeeded with data, `Feed` reported no decode error, and the
synchronous reply write succeeds — in particular no command-level error
(wrong arity, unknown command, non-integer `INCR`) ever closes. -/
theorem onRead_ok_feed_keeps_open (c : ConnState) (st : Store) (data : List Nat)
    (hc : c.closed = false) (hd : data.isEmpty = false)
    (hfeed : (Feed c.parser data).1.2 = none) :
    (onRead c st data false true).conn.closed = false ∧
    (onRead c st data false true).action = .Continue := by
  rcases hF : Feed c.parser data with ⟨⟨frames, err⟩, p2⟩
  rw [hF] at hfeed
  dsimp only at hfeed
  subst hfeed
  unfold onRead
  rw [hc, hd, hF]
  simp only [Bool.false_eq_true, if_false]
  cases hFr : frames.isEmpty with
  | true => simp [hFr, hc]
  | false =>
    rcases hA : appendFrames [] frames st with ⟨wire, s2⟩
    simp [hFr, hA, hc]

/-- C7: a command array whose head token matches a known command name with
an unsupported argument count gets the fixed reply
`ERR wrong number of arguments for (cmd) command` with the lower-case
command name, and command errors never close the connection: a read whose
frames decode cleanly always leaves the connection open with action
`Continue` (when the reply write succeeds). -/
theorem wrong_arity_replies_and_stay_open (dst : List Nat) (s : Store) (t0 : Value)
    (cb : List Nat) (args : List Value) (ht : tokenBytes t0 = some cb) :
    (commandIs cb "PING" = true → 2 ≤ args.length →
      appendResponse dst (.array (t0 :: args)) s = (appendWrongArity dst "ping", s)) ∧
    (commandIs cb "ECHO" = true → args.length ≠ 1 →
      appendResponse dst (.array (t0 :: args)) s = (appendWrongArity dst "echo", s)) ∧
    (commandIs cb "SET" = true → args.length ≠ 2 →
      appendResponse dst (.array (t0 :: args)) s = (appendWrongArity dst "set", s)) ∧
    (commandIs cb "GET" = true → args.length ≠ 1 →
      appendResponse dst (.array (t0 :: args)) s = (appendWrongArity dst "get", s)) ∧
    (commandIs cb "DEL" = true → args = [] →
      appendResponse dst (.array (t0 :: args)) s = (appendWrongArity dst "del", s)) ∧
    (commandIs cb "INCR" = true → args.length ≠ 1 →
      appendResponse dst (.array (t0 :: args)) s = (appendWrongArity dst "incr", s)) ∧
    (∀ (c : ConnState) (st : Store) (data : List Nat),
      c.closed = false → data.isEmpty = false → (Feed c.parser data).1.2 = none →
      (onRead c st data false true).conn.closed = false ∧
      (onRead c st data false true).action = .Continue) := by
  have har : appendResponse dst (.array (t0 :: args)) s = dispatchCommand dst cb args s := by
    cases t0 with
    | simpleString b =>
      have hb : b = cb := by simpa [tokenBytes] using ht
      rw [appendResponse_eq_dispatch_simple, hb]
    | bulkString b =>
      have hb : b = cb := by simpa [tokenBytes] using ht
      rw [appendResponse_eq_dispatch_bulk, hb]
    | error e => simp [tokenBytes] at ht
    | integer n => simp [tokenBytes] at ht
    | array a => simp [tokenBytes] at ht
    | null => simp [tokenBytes] at ht
  rw [har]
  have hd := dispatch_wrong_arity dst cb args s
  exact ⟨hd.1, hd.2.1, hd.2.2.1, hd.2.2.2.1, hd.2.2.2.2.1, hd.2.2.2.2.2,
    onRead_ok_feed_keeps_open⟩

/-- Witness for C7: `PING a b` (lower-case on the wire works too) gets
exactly the wrong-arity reply, and a connection fed a clean `*1$4PING`
frame stays open with `Continue`. -/
theorem wrong_arity_replies_and_stay_open_witness :
    (appendResponse [] (.array [.bulkString (strBytes "ping"), .bulkString (strBytes "a"),
        .bulkString (strBytes "b")]) NewStore = (appendWrongArity [] "ping", NewStore)) ∧
    ((onRead ⟨NewParser, false⟩ NewStore (strBytes "*1\r\n$4\r\nPING\r\n") false
        true).conn.closed = false ∧
      (onRead ⟨NewParser, false⟩ NewStore (strBytes "*1\r\n$4\r\nPING\r\n") false
        true).action = .Continue) := by
  have h := wrong_arity_replies_and_stay_open [] NewStore (.bulkString (strBytes "ping"))
    (strBytes "ping") [.bulkString (strBytes "a"), .bulkString (strBytes "b")] (by decide)
  exact ⟨h.1 (by decide) (by decide),
    h.2.2.2.2.2.2 ⟨NewParser, false⟩ NewStore (strBytes "*1\r\n$4\r\nPING\r\n") (by decide)
      (by decide) (by decide)⟩

/-! ## C2: behaviour of the reactor on a decode error -/

theorem hasRESPNewline_append (a b : List Nat) :
    hasRESPNewline (a ++ b) = (hasRESPNewline a || hasRESPNewline b) := by
  simp [hasRESPNewline, List.any_append]

theorem hasRESPNewline_cons (b : Nat) (l : List Nat) :
    hasRESPNewline (b :: l) = ((decide (b = 13) || decide (b = 10)) || hasRESPNewline l) := by
  simp [hasRESPNewline]

theorem hasRESPNewline_natDigitsAux (fuel n : Nat) :
    hasRESPNewline (natDigitsAux fuel n) = false := by
  induction fuel generalizing n with
  | zero => rfl
  | succ f ih =>
    unfold natDigitsAux
    split
    · rfl
    · rw [hasRESPNewline_append, ih, hasRESPNewline_cons]
      have h1 : decide (48 + n % 10 = 13) = false := by
        rw [decide_eq_false_iff_not]; omega
      have h2 : decide (48 + n % 10 = 10) = false := by
        rw [decide_eq_false_iff_not]; omega
      rw [h1, h2]
      rfl

theorem hasRESPNewline_natDecimal (n : Nat) : hasRESPNewline (natDecimal n) = false := by
  unfold natDecimal
  split
  · rfl
  · exact hasRESPNewline_natDigitsAux n n

theorem hasRESPNewline_intDecimal (n : Int) : hasRESPNewline (intDecimal n) = false := by
  unfold intDecimal
  split
  · rw [hasRESPNewline_cons, hasRESPNewline_natDecimal]
    rfl
  · exact hasRESPNewline_natDecimal _

theorem hexDigit_ne_crlf (n : Nat) : hexDigit n ≠ 13 ∧ hexDigit n ≠ 10 := by
  have h : 48 ≤ hexDigit n := by
    unfold hexDigit
    split <;> omega
  omega

theorem hasRESPNewline_quoteByte (b : Nat) : hasRESPNewline (quoteByte b) = false := by
  have h1 := hexDigit_ne_crlf (b / 16 % 16)
  have h2 := hexDigit_ne_crlf (b % 16)
  unfold quoteByte
  split_ifs with hf1 hf2 hf3 hf4 hf5 hf6
  · rfl
  · rfl
  · rfl
  · rfl
  · rfl
  · rw [hasRESPNewline_cons, decide_eq_false hf3, decide_eq_false hf4]
    rfl
  · simp only [hasRESPNewline_cons, decide_eq_false h1.1, decide_eq_false h1.2,
      decide_eq_false h2.1, decide_eq_false h2.2]
    rfl

theorem hasRESPNewline_goQuote (l : List Nat) : hasRESPNewline (goQuote l) = false := by
  unfold goQuote
  rw [hasRESPNewline_append, hasRESPNewline_append]
  have hf : hasRESPNewline (l.map quoteByte).flatten = false := by
    induction l with
    | nil => rfl
    | cons b r ih =>
      simp only [List.map_cons, List.flatten_cons]
      rw [hasRESPNewline_append, ih, hasRESPNewline_quoteByte]
      rfl
  rw [hf]
  rfl

/-- The rendered decode-error message never contains a raw CR or LF (Go's
`%q`/`%d` interpolations escape them), so the protocol-error reply always
encodes successfully. -/
theorem errText_clean (e : ParseErr) : hasRESPNewline (errText e) = false := by
  cases e <;>
    simp [errText, hasRESPNewline_append, hasRESPNewline_goQuote, hasRESPNewline_natDecimal,
      hasRESPNewline_intDecimal, Bool.or_eq_false_iff] <;> decide

theorem encode_error_of_clean (msg : List Nat) (h : hasRESPNewline msg = false) :
    Encode (.error msg) = .ok ([45] ++ msg ++ [13, 10]) := by
  have hv : validateForEncode (.error msg) = none := by
    simp [validateForEncode, h]
  have hred : Encode (.error msg) =
      (match validateForEncode (.error msg) with
       | some e => Except.error e
       | none => .ok ([] ++ [45] ++ msg ++ [13, 10])) := rfl
  rw [hred, hv]
  rfl

/-- Counterexample for C2 as stated: after `Feed` reports a decode error on
`!x\r\n`, the reactor does not close the connection — the closed flag stays
false and the read callback re-arms with `Continue`. -/
theorem protocol_error_close_counterexample :
    (Feed NewParser (strBytes "!x\r\n")).1.2 = some (.unknownPrefix 33) ∧
    (onRead ⟨NewParser, false⟩ NewStore (strBytes "!x\r\n") false true).conn.closed = false ∧
    (onRead ⟨NewParser, false⟩ NewStore (strBytes "!x\r\n") false true).action =
      .Continue := by
  refine ⟨by decide, by decide, by decide⟩

/-- C2 (amended): when `Parser.Feed` returns a decode error inside a read
completion, the reactor emits exactly one protocol-error reply — the single
RESP2 Error frame `-ERR Protocol error: <msg>\r\n` — with the parser buffer
cleared, and keeps the connection open (flag still false, action
`Continue`, connection still registered and reading); it would close only
if the synchronous write of that reply failed. -/
theorem feed_error_reply_keeps_open (c : ConnState) (s : Store) (data : List Nat)
    (e : ParseErr) (hc : c.closed = false) (hd : data.isEmpty = false)
    (herr : (Feed c.parser data).1.2 = some e) :
    onRead c s data false true =
      ⟨appendErrorReply [] (strBytes "ERR Protocol error: " ++ errText e), .Continue,
        ⟨(Feed c.parser data).2, false⟩, s⟩ ∧
    (Feed c.parser data).2.buf = [] := by
  have hclean : hasRESPNewline (strBytes "ERR Protocol error: " ++ errText e) = false := by
    rw [hasRESPNewline_append, errText_clean]
    decide
  have hbuf : (Feed c.parser data).1.1 = [] ∧ (Feed c.parser data).2.buf = [] :=
    feed_error_returns_nil_and_clears c.parser data e herr
  rcases hF : Feed c.parser data with ⟨⟨frames, err⟩, p2⟩
  rw [hF] at herr
  dsimp only at herr
  subst herr
  refine ⟨?_, by rw [hF] at hbuf; exact hbuf.2⟩
  unfold onRead
  rw [hc, hd, hF]
  simp only [Bool.false_eq_true, if_false]
  have hwire : syncResponseWire
      (.error (strBytes "ERR Protocol error: " ++ errText e)) =
      appendErrorReply [] (strBytes "ERR Protocol error: " ++ errText e) := by
    unfold syncResponseWire
    rw [encode_error_of_clean _ hclean]
    rfl
  rw [hwire]
  rw [hF] at *
  exact congrArg (fun cl => ReadOutcome.mk _ _ ⟨p2, cl⟩ s) hc ▸ rfl

/-- Witness for C2 (amended) at the concrete malformed input `!x\r\n`. -/
theorem feed_error_reply_keeps_open_witness :
    onRead ⟨NewParser, false⟩ NewStore (strBytes "!x\r\n") false true =
      ⟨appendErrorReply []
          (strBytes "ERR Protocol error: " ++ errText (.unknownPrefix 33)), .Continue,
        ⟨(Feed NewParser (strBytes "!x\r\n")).2, false⟩, NewStore⟩ ∧
    (Feed NewParser (strBytes "!x\r\n")).2.buf = [] :=
  feed_error_reply_keeps_open ⟨NewParser, false⟩ NewStore (strBytes "!x\r\n")
    (.unknownPrefix 33) rfl (by decide) (by decide)

/-! ## C8: `Encode` errors exactly on CR/LF-polluted inline payloads -/

mutual
/-- Spec-side predicate (from the claim's wording): does the value contain,
at any nesting depth, a `SimpleString` or `Error` payload that includes a
CR or LF byte? -/
def containsBadInline : Value → Bool
  | .simpleString s => hasRESPNewline s
  | .error s => hasRESPNewline s
  | .array a => containsBadInlineList a
  | _ => false
def containsBadInlineList : List Value → Bool
  | [] => false
  | v :: r => containsBadInline v || containsBadInlineList r
end

mutual
/-- Spec-side RESP2 serialization (the grammar of spec §4.2), with no
validation: `+s\r\n`, `-s\r\n`, `:n\r\n`, `$len\r\n bytes \r\n`,
`*n\r\n` followed by each child, `$-1\r\n` for Null. -/
def serializeSpec : Value → List Nat
  | .simpleString s => [43] ++ s ++ [13, 10]
  | .error s => [45] ++ s ++ [13, 10]
  | .integer n => [58] ++ intDecimal n ++ [13, 10]
  | .bulkString b => [36] ++ natDecimal b.length ++ [13, 10] ++ b ++ [13, 10]
  | .array a => [42] ++ natDecimal a.length ++ [13, 10] ++ serializeSpecList a
  | .null => [36, 45, 49, 13, 10]
def serializeSpecList : List Value → List Nat
  | [] => []
  | v :: r => serializeSpec v ++ serializeSpecList r
end

mutual
theorem appendEncode_ok_of_clean : ∀ (v : Value) (dst : List Nat),
    containsBadInline v = false → AppendEncode dst v = .ok (dst ++ serializeSpec v)
  | .simpleString s, dst, h => by
    have hs : hasRESPNewline s = false := by simpa [containsBadInline] using h
    have hred : AppendEncode dst (.simpleString s) =
        (match validateForEncode (.simpleString s) with
         | some e => Except.error e
         | none => .ok (dst ++ [43] ++ s ++ [13, 10])) := rfl
    have hv : validateForEncode (.simpleString s) = none := by
      have h2 : validateForEncode (.simpleString s) =
          (if hasRESPNewline s then some (.inlineCRLF "simple_string") else none) := rfl
      rw [h2, hs]
      rfl
    rw [hred, hv]
    simp [serializeSpec]
  | .error s, dst, h => by
    have hs : hasRESPNewline s = false := by simpa [containsBadInline] using h
    have hred : AppendEncode dst (.error s) =
        (match validateForEncode (.error s) with
         | some e => Except.error e
         | none => .ok (dst ++ [45] ++ s ++ [13, 10])) := rfl
    have hv : validateForEncode (.error s) = none := by
      have h2 : validateForEncode (.error s) =
          (if hasRESPNewline s then some (.inlineCRLF "error") else none) := rfl
      rw [h2, hs]
      rfl
    rw [hred, hv]
    simp [serializeSpec]
  | .integer n, dst, _ => by
    have hred : AppendEncode dst (.integer n) =
        .ok (dst ++ [58] ++ intDecimal n ++ [13, 10]) := rfl
    rw [hred]
    simp [serializeSpec]
  | .bulkString b, dst, _ => by
    have hred : AppendEncode dst (.bulkString b) =
        .ok (dst ++ [36] ++ natDecimal b.length ++ [13, 10] ++ b ++ [13, 10]) := rfl
    rw [hred]
    simp [serializeSpec]
  | .null, dst, _ => by
    have hred : AppendEncode dst .null = .ok (dst ++ [36, 45, 49, 13, 10]) := rfl
    rw [hred]
    simp [serializeSpec]
  | .array a, dst, h => by
    have hl : containsBadInlineList a = false := by simpa [containsBadInline] using h
    have hred : AppendEncode dst (.array a) =
        encodeItems (dst ++ [42] ++ natDecimal a.length ++ [13, 10]) a := rfl
    rw [hred, encodeItems_ok_of_clean a _ hl]
    simp [serializeSpec]
theorem encodeItems_ok_of_clean : ∀ (a : List Value) (dst : List Nat),
    containsBadInlineList a = false → encodeItems dst a = .ok (dst ++ serializeSpecList a)
  | [], dst, _ => by
    have hred : encodeItems dst [] = .ok dst := rfl
    rw [hred]
    simp [serializeSpecList]
  | v :: r, dst, h => by
    have hv : containsBadInline v = false := by
      have := congrArg (fun b => b) h
      simp only [containsBadInlineList, Bool.or_eq_false_iff] at h
      exact h.1
    have hr : containsBadInlineList r = false := by
      simp only [containsBadInlineList, Bool.or_eq_false_iff] at h
      exact h.2
    have hred : encodeItems dst (v :: r) =
        (match AppendEncode dst v with
         | .error e => Except.error e
         | .ok dst2 => encodeItems dst2 r) := rfl
    rw [hred, appendEncode_ok_of_clean v dst hv]
    dsimp only
    rw [encodeItems_ok_of_clean r _ hr]
    simp [serializeSpecList]
end

mutual
theorem appendEncode_error_of_bad : ∀ (v : Value) (dst : List Nat),
    containsBadInline v = true → ∃ e, AppendEncode dst v = .error e
  | .simpleString s, dst, h => by
    have hs : hasRESPNewline s = true := by simpa [containsBadInline] using h
    have hred : AppendEncode dst (.simpleString s) =
        (match validateForEncode (.simpleString s) with
         | some e => Except.error e
         | none => .ok (dst ++ [43] ++ s ++ [13, 10])) := rfl
    have hv : validateForEncode (.simpleString s) = some (.inlineCRLF "simple_string") := by
      have h2 : validateForEncode (.simpleString s) =
          (if hasRESPNewline s then some (.inlineCRLF "simple_string") else none) := rfl
      rw [h2, hs]
      rfl
    exact ⟨.inlineCRLF "simple_string", by rw [hred, hv]⟩
  | .error s, dst, h => by
    have hs : hasRESPNewline s = true := by simpa [containsBadInline] using h
    have hred : AppendEncode dst (.error s) =
        (match validateForEncode (.error s) with
         | some e => Except.error e
         | none => .ok (dst ++ [45] ++ s ++ [13, 10])) := rfl
    have hv : validateForEncode (.error s) = some (.inlineCRLF "error") := by
      have h2 : validateForEncode (.error s) =
          (if hasRESPNewline s then some (.inlineCRLF "error") else none) := rfl
      rw [h2, hs]
      rfl
    exact ⟨.inlineCRLF "error", by rw [hred, hv]⟩
  | .integer _, _, h => by simp [containsBadInline] at h
  | .bulkString _, _, h => by simp [containsBadInline] at h
  | .null, _, h => by simp [containsBadInline] at h
  | .array a, dst, h => by
    have hl : containsBadInlineList a = true := by simpa [containsBadInline] using h
    have hred : AppendEncode dst (.array a) =
        encodeItems (dst ++ [42] ++ natDecimal a.length ++ [13, 10]) a := rfl
    obtain ⟨e, he⟩ := encodeItems_error_of_bad a _ hl
    exact ⟨e, by rw [hred, he]⟩
theorem encodeItems_error_of_bad : ∀ (a : List Value) (dst : List Nat),
    containsBadInlineList a = true → ∃ e, encodeItems dst a = .error e
  | [], _, h => by simp [containsBadInlineList] at h
  | v :: r, dst, h => by
    have hred : encodeItems dst (v :: r) =
        (match AppendEncode dst v with
         | .error e => Except.error e
         | .ok dst2 => encodeItems dst2 r) := rfl
    rcases hv : containsBadInline v with hvf | hvt
    · have hr : containsBadInlineList r = true := by
        simp only [containsBadInlineList, hv, Bool.false_or] at h
        exact h
      rw [hred, appendEncode_ok_of_clean v dst hv]
      dsimp only
      exact encodeItems_error_of_bad r _ hr
    · obtain ⟨e, he⟩ := appendEncode_error_of_bad v dst hv
      exact ⟨e, by rw [hred, he]⟩
end

/-- C8: `Encode v` returns an error exactly when `v` contains, at any
nesting depth, a `SimpleString` or `Error` payload including a CR or LF
byte; for every other `v` it returns the RESP2 grammar serialization of
`v` with no error.  (The Go `default: unsupported kind` branch is
unreachable for values of the six declared kinds, which is all the tagged
union can represent at the value level.) -/
theorem encode_error_iff_bad_inline (v : Value) :
    ((∃ e, Encode v = .error e) ↔ containsBadInline v = true) ∧
    (containsBadInline v = false → Encode v = .ok (serializeSpec v)) := by
  constructor
  · constructor
    · intro ⟨e, he⟩
      rcases hv : containsBadInline v with hvf | hvt
      · have := appendEncode_ok_of_clean v [] hv
        rw [Encode] at he
        rw [this] at he
        cases he
      · rfl
    · intro hv
      exact appendEncode_error_of_bad v [] hv
  · intro hv
    have := appendEncode_ok_of_clean v [] hv
    rw [Encode, this]
    simp

/-- Witness for C8: a clean nested value serializes per the grammar, and a
CR-polluted `SimpleString` nested inside an array makes `Encode` fail. -/
theorem encode_error_iff_bad_inline_witness :
    (containsBadInline (.array [.simpleString (strBytes "OK"), .integer 5]) = false ∧
      Encode (.array [.simpleString (strBytes "OK"), .integer 5]) =
        .ok (serializeSpec (.array [.simpleString (strBytes "OK"), .integer 5]))) ∧
    (∃ e, Encode (.array [.simpleString [13]]) = .error e) := by
  refine ⟨⟨by decide, ?_⟩, ?_⟩
  · exact (encode_error_iff_bad_inline _).2 (by decide)
  · exact (encode_error_iff_bad_inline (.array [.simpleString [13]])).1.2 (by decide)

/-! ## Parser stability lemmas: `findCRLF` and `readLine` under appending
more input and truncating to a prefix -/

theorem getD_append_left {l1 l2 : List Nat} {n : Nat} (h : n < l1.length) (d : Nat) :
    (l1 ++ l2).getD n d = l1.getD n d := by
  simp [List.getD_eq_getElem?_getD, List.getElem?_append_left h]

theorem findCRLF_bound : ∀ {l : List Nat} {i : Nat}, findCRLF l = some i → i + 2 ≤ l.length := by
  intro l
  induction l with
  | nil => intro i h; exact Option.noConfusion (show (none : Option Nat) = some i from h)
  | cons b r ih =>
    cases r with
    | nil => intro i h; exact Option.noConfusion (show (none : Option Nat) = some i from h)
    | cons c r2 =>
      intro i h
      rw [findCRLF] at h
      split at h
      · injection h with h2
        subst h2
        simp
      · cases hf : findCRLF (c :: r2) with
        | none => rw [hf] at h; simp at h
        | some j =>
          rw [hf] at h
          injection (show some (j + 1) = some i from h) with h2
          subst h2
          have := ih hf
          simp at this ⊢
          omega

theorem findCRLF_append : ∀ {l : List Nat} {i : Nat} (e : List Nat),
    findCRLF l = some i → findCRLF (l ++ e) = some i := by
  intro l
  induction l with
  | nil => intro i e h; exact Option.noConfusion (show (none : Option Nat) = some i from h)
  | cons b r ih =>
    cases r with
    | nil => intro i e h; exact Option.noConfusion (show (none : Option Nat) = some i from h)
    | cons c r2 =>
      intro i e h
      rw [findCRLF] at h
      rw [List.cons_append, List.cons_append, findCRLF]
      split at h
      · rename_i hcond
        rw [if_pos hcond]
        exact h
      · rename_i hcond
        rw [if_neg hcond]
        cases hf : findCRLF (c :: r2) with
        | none => rw [hf] at h; simp at h
        | some j =>
          rw [hf] at h
          injection (show some (j + 1) = some i from h) with h2
          have := ih (i := j) e hf
          rw [← List.cons_append, this, ← h2]
          rfl

theorem findCRLF_take : ∀ {l : List Nat} {i : Nat} {j : Nat},
    findCRLF l = some i → i + 2 ≤ j → findCRLF (l.take j) = some i := by
  intro l
  induction l with
  | nil => intro i j h _; exact Option.noConfusion (show (none : Option Nat) = some i from h)
  | cons b r ih =>
    cases r with
    | nil =>
      intro i j h _
      exact Option.noConfusion (show (none : Option Nat) = some i from h)
    | cons c r2 =>
      intro i j h hj
      rw [findCRLF] at h
      obtain ⟨j1, rfl⟩ : ∃ j1, j = j1 + 1 := ⟨j - 1, by omega⟩
      obtain ⟨j2, rfl⟩ : ∃ j2, j1 = j2 + 1 := ⟨j1 - 1, by omega⟩
      simp only [List.take_succ_cons]
      split at h
      · rename_i hcond
        rw [findCRLF, if_pos hcond]
        exact h
      · rename_i hcond
        cases hf : findCRLF (c :: r2) with
        | none => rw [hf] at h; simp at h
        | some k =>
          rw [hf] at h
          injection (show some (k + 1) = some i from h) with h2
          subst h2
          have hk : findCRLF ((c :: r2).take (j2 + 1)) = some k := ih hf (by omega)
          rw [List.take_succ_cons] at hk
          rw [findCRLF, if_neg hcond, hk]
          rfl

theorem readLine_bound {data : List Nat} {off : Nat} {line : List Nat} {nx : Nat}
    (h : readLine data off = some (line, nx)) :
    off + 2 ≤ nx ∧ nx ≤ data.length ∧ line = (data.drop off).take (nx - off - 2) := by
  unfold readLine at h
  split at h
  · simp at h
  · rename_i hoff
    cases hf : findCRLF (data.drop off) with
    | none => rw [hf] at h; simp at h
    | some i =>
      rw [hf] at h
      injection h with h2
      injection h2 with h3 h4
      subst h3
      subst h4
      have hb := findCRLF_bound hf
      rw [List.length_drop] at hb
      refine ⟨by omega, by omega, ?_⟩
      congr 1
      omega

theorem readLine_append {data : List Nat} {off : Nat} {line : List Nat} {nx : Nat}
    (e : List Nat) (h : readLine data off = some (line, nx)) :
    readLine (data ++ e) off = some (line, nx) := by
  unfold readLine at h ⊢
  split at h
  · simp at h
  · rename_i hoff
    push_neg at hoff
    rw [if_neg (by rw [List.length_append]; omega)]
    cases hf : findCRLF (data.drop off) with
    | none => rw [hf] at h; simp at h
    | some i =>
      rw [hf] at h
      dsimp only at h
      have hb := findCRLF_bound hf
      rw [List.length_drop] at hb
      rw [List.drop_append_of_le_length (by omega), findCRLF_append e hf]
      dsimp only
      rw [List.take_append_of_le_length (by rw [List.length_drop]; omega)]
      exact h

theorem readLine_take {data : List Nat} {off : Nat} {line : List Nat} {nx : Nat}
    (h : readLine data off = some (line, nx)) :
    ∀ j, nx ≤ j → readLine (data.take j) off = some (line, nx) := by
  intro j hj
  unfold readLine at h ⊢
  split at h
  · simp at h
  · rename_i hoff
    push_neg at hoff
    cases hf : findCRLF (data.drop off) with
    | none => rw [hf] at h; simp at h
    | some i =>
      rw [hf] at h
      dsimp only at h
      injection h with h2
      injection h2 with h3 h4
      have hb := findCRLF_bound hf
      rw [List.length_drop] at hb
      rw [if_neg (by rw [List.length_take]; push_neg; omega)]
      rw [List.drop_take]
      have hfi : findCRLF ((data.drop off).take (j - off)) = some i :=
        findCRLF_take hf (by omega)
      rw [hfi]
      dsimp only
      rw [List.take_take, min_eq_left (by omega)]
      rw [h3, h4]

theorem readLine_none_of_take {data : List Nat} {off j : Nat} {line : List Nat} {nx : Nat}
    (h : readLine data off = some (line, nx)) (hj : j < nx) :
    readLine (data.take j) off = none := by
  cases hr : readLine (data.take j) off with
  | none => rfl
  | some p =>
    obtain ⟨line2, nx2⟩ := p
    have he := readLine_append (data.drop j) hr
    rw [List.take_append_drop] at he
    rw [h] at he
    injection he with h2
    injection h2 with h3 h4
    have hb := readLine_bound hr
    rw [List.length_take] at hb
    omega

/-! ## Progress: completed frames consume at least one byte and stay inside
the buffer -/

theorem runItems_mono (step : Nat → ParseResult)
    (hstep : ∀ cur v nx, step cur = .ok v nx → cur ≤ nx) :
    ∀ (count cursor : Nat) (acc vs : List Value) (fin : Nat),
      runItems step cursor count acc = .ok vs fin → cursor ≤ fin
  | 0, cursor, acc, vs, fin, h => by
    injection (show ItemsResult.ok acc cursor = .ok vs fin from h) with h1 h2
    omega
  | count + 1, cursor, acc, vs, fin, h => by
    simp only [runItems] at h
    cases hs : step cursor with
    | ok v nx =>
      rw [hs] at h
      have h2 := runItems_mono step hstep count nx (acc ++ [v]) vs fin h
      have := hstep cursor v nx hs
      omega
    | incomplete => rw [hs] at h; exact absurd h (by simp)
    | fail e => rw [hs] at h; exact absurd h (by simp)

theorem runItems_progress {L : Nat} (step : Nat → ParseResult)
    (hstep : ∀ cur v nx, step cur = .ok v nx → cur < nx ∧ nx ≤ L) :
    ∀ (count cursor : Nat) (acc vs : List Value) (fin : Nat),
      runItems step cursor count acc = .ok vs fin → cursor ≤ fin ∧ (fin ≤ L ∨ fin = cursor)
  | 0, cursor, acc, vs, fin, h => by
    injection (show ItemsResult.ok acc cursor = .ok vs fin from h) with h1 h2
    subst h2
    exact ⟨le_refl _, Or.inr rfl⟩
  | count + 1, cursor, acc, vs, fin, h => by
    simp only [runItems] at h
    cases hs : step cursor with
    | ok v nx =>
      rw [hs] at h
      have hp := hstep cursor v nx hs
      have ih := runItems_progress step hstep count nx (acc ++ [v]) vs fin h
      refine ⟨by omega, Or.inl ?_⟩
      rcases ih.2 with h2 | h2
      · exact h2
      · omega
    | incomplete => rw [hs] at h; exact absurd h (by simp)
    | fail e => rw [hs] at h; exact absurd h (by simp)

set_option maxHeartbeats 1600000 in
theorem parseAt_progress (p : Parser) (data : List Nat) :
    ∀ (gas offset : Nat) (v : Value) (nx : Nat),
      parseAt p data gas offset = .ok v nx → offset < nx ∧ nx ≤ data.length := by
  intro gas
  induction gas with
  | zero =>
    intro offset v nx h
    exact absurd (show ParseResult.fail (.depthExceeded p.maxDepth) = .ok v nx from h)
      (by simp)
  | succ gas ih =>
    intro offset v nx h
    simp only [parseAt, parseAtCore] at h
    split at h
    · exact absurd h (by simp)
    rename_i hoff
    push_neg at hoff
    split at h
    · -- '+'
      cases hr : readLine data (offset + 1) with
      | none => rw [hr] at h; exact absurd h (by simp)
      | some ln =>
        obtain ⟨line, next⟩ := ln
        rw [hr] at h
        dsimp only at h
        injection h with h1 h2
        have hb := readLine_bound hr
        omega
    split at h
    · -- '-'
      cases hr : readLine data (offset + 1) with
      | none => rw [hr] at h; exact absurd h (by simp)
      | some ln =>
        obtain ⟨line, next⟩ := ln
        rw [hr] at h
        dsimp only at h
        injection h with h1 h2
        have hb := readLine_bound hr
        omega
    split at h
    · -- ':'
      cases hr : readLine data (offset + 1) with
      | none => rw [hr] at h; exact absurd h (by simp)
      | some ln =>
        obtain ⟨line, next⟩ := ln
        rw [hr] at h
        dsimp only at h
        cases hn : parseInt64 line with
        | none => rw [hn] at h; exact absurd h (by simp)
        | some n =>
          rw [hn] at h
          dsimp only at h
          injection h with h1 h2
          have hb := readLine_bound hr
          omega
    split at h
    · -- '$'
      cases hr : readLine data (offset + 1) with
      | none => rw [hr] at h; exact absurd h (by simp)
      | some ln =>
        obtain ⟨line, next⟩ := ln
        rw [hr] at h
        dsimp only at h
        cases hn : parseInt64 line with
        | none => rw [hn] at h; exact absurd h (by simp)
        | some n =>
          rw [hn] at h
          dsimp only at h
          have hb := readLine_bound hr
          split at h
          · injection h with h1 h2
            omega
          split at h
          · exact absurd h (by simp)
          split at h
          · exact absurd h (by simp)
          split at h
          · exact absurd h (by simp)
          split at h
          · rename_i hcrlf
            injection h with h1 h2
            omega
          · exact absurd h (by simp)
    split at h
    · -- '*'
      cases hr : readLine data (offset + 1) with
      | none => rw [hr] at h; exact absurd h (by simp)
      | some ln =>
        obtain ⟨line, next⟩ := ln
        rw [hr] at h
        dsimp only at h
        cases hn : parseInt64 line with
        | none => rw [hn] at h; exact absurd h (by simp)
        | some n =>
          rw [hn] at h
          dsimp only at h
          split at h
          · exact absurd h (by simp)
          split at h
          · exact absurd h (by simp)
          have hb := readLine_bound hr
          cases hri : runItems
              (fun cur => parseAtCore p.maxBulkLen p.maxArrayLen p.maxDepth data gas cur)
              next n.toNat [] with
          | ok vs fin =>
            rw [hri] at h
            dsimp only at h
            injection h with h1 h2
            have hprog := runItems_progress (L := data.length)
              (fun cur => parseAtCore p.maxBulkLen p.maxArrayLen p.maxDepth data gas cur)
              (fun cur w m hw => ih cur w m hw) n.toNat next [] vs fin hri
            rcases hprog.2 with h3 | h3 <;> omega
          | incomplete => rw [hri] at h; exact absurd h (by simp)
          | fail e => rw [hri] at h; exact absurd h (by simp)
    · -- unknown prefix
      exact absurd h (by simp)

/-! ## Branch-unfolding lemmas for `parseAt` -/

theorem parseAt_zero (p : Parser) (data : List Nat) (offset : Nat) :
    parseAt p data 0 offset = .fail (.depthExceeded p.maxDepth) := rfl

theorem parseAt_ge_len (p : Parser) (data : List Nat) (gas offset : Nat)
    (h : offset ≥ data.length) : parseAt p data (gas + 1) offset = .incomplete := by
  simp only [parseAt, parseAtCore]
  rw [if_pos h]

theorem parseAt_unfold_plus (p : Parser) (data : List Nat) (gas offset : Nat)
    (hoff : offset < data.length) (hb : data.getD offset 0 = 43) :
    parseAt p data (gas + 1) offset =
      (match readLine data (offset + 1) with
       | none => .incomplete
       | some (line, next) => .ok (.simpleString line) next) := by
  simp only [parseAt, parseAtCore]
  rw [if_neg (by omega), hb]
  norm_num

theorem parseAt_unfold_err (p : Parser) (data : List Nat) (gas offset : Nat)
    (hoff : offset < data.length) (hb : data.getD offset 0 = 45) :
    parseAt p data (gas + 1) offset =
      (match readLine data (offset + 1) with
       | none => .incomplete
       | some (line, next) => .ok (.error line) next) := by
  simp only [parseAt, parseAtCore]
  rw [if_neg (by omega), hb]
  norm_num

theorem parseAt_unfold_int (p : Parser) (data : List Nat) (gas offset : Nat)
    (hoff : offset < data.length) (hb : data.getD offset 0 = 58) :
    parseAt p data (gas + 1) offset =
      (match readLine data (offset + 1) with
       | none => .incomplete
       | some (line, next) =>
         match parseInt64 line with
         | none => .fail (.invalidInteger line)
         | some n => .ok (.integer n) next) := by
  simp only [parseAt, parseAtCore]
  rw [if_neg (by omega), hb]
  norm_num

theorem parseAt_unfold_bulk (p : Parser) (data : List Nat) (gas offset : Nat)
    (hoff : offset < data.length) (hb : data.getD offset 0 = 36) :
    parseAt p data (gas + 1) offset =
      (match readLine data (offset + 1) with
       | none => .incomplete
       | some (line, next) =>
         match parseInt64 line with
         | none => .fail (.invalidBulkLen line)
         | some n =>
           if n = -1 then .ok .null next
           else if n < -1 then .fail (.negativeBulkLen n)
           else if n > (p.maxBulkLen : Int) then .fail (.bulkTooLong n p.maxBulkLen)
           else if next + n.toNat + 2 > data.length then .incomplete
           else if data.getD (next + n.toNat) 0 = 13 ∧ data.getD (next + n.toNat + 1) 0 = 10 then
             .ok (.bulkString ((data.drop next).take n.toNat)) (next + n.toNat + 2)
           else .fail .missingBulkCRLF) := by
  simp only [parseAt, parseAtCore]
  rw [if_neg (by omega), hb]
  norm_num

theorem parseAt_unfold_array (p : Parser) (data : List Nat) (gas offset : Nat)
    (hoff : offset < data.length) (hb : data.getD offset 0 = 42) :
    parseAt p data (gas + 1) offset =
      (match readLine data (offset + 1) with
       | none => .incomplete
       | some (line, next) =>
         match parseInt64 line with
         | none => .fail (.invalidArrayLen line)
         | some n =>
           if n < 0 then .fail (.negativeArrayLen n)
           else if n > (p.maxArrayLen : Int) then .fail (.arrayTooLong n p.maxArrayLen)
           else
             match runItems (fun cur => parseAt p data gas cur) next n.toNat [] with
             | .ok vs fin => .ok (.array vs) fin
             | .incomplete => .incomplete
             | .fail e => .fail e) := by
  simp only [parseAt, parseAtCore]
  rw [if_neg (by omega), hb]
  norm_num

theorem parseAt_unfold_unknown (p : Parser) (data : List Nat) (gas offset : Nat)
    (hoff : offset < data.length)
    (h43 : data.getD offset 0 ≠ 43) (h45 : data.getD offset 0 ≠ 45)
    (h58 : data.getD offset 0 ≠ 58) (h36 : data.getD offset 0 ≠ 36)
    (h42 : data.getD offset 0 ≠ 42) :
    parseAt p data (gas + 1) offset = .fail (.unknownPrefix (data.getD offset 0)) := by
  simp only [parseAt, parseAtCore]
  rw [if_neg (by omega), if_neg h43, if_neg h45, if_neg h58, if_neg h36, if_neg h42]

/-! ## Extension: completed and failed decode attempts are unchanged by
appending further input -/

theorem runItems_extend (step step2 : Nat → ParseResult)
    (hstep : ∀ cur r, step cur = r → r ≠ .incomplete → step2 cur = r) :
    ∀ (count cursor : Nat) (acc : List Value) (r : ItemsResult),
      runItems step cursor count acc = r → r ≠ .incomplete →
      runItems step2 cursor count acc = r
  | 0, cursor, acc, r, h, _ => h
  | count + 1, cursor, acc, r, h, hne => by
    simp only [runItems] at h ⊢
    cases hs : step cursor with
    | ok v nx =>
      rw [hs] at h
      rw [hstep cursor _ hs (by simp)]
      exact runItems_extend step step2 hstep count nx (acc ++ [v]) r h hne
    | incomplete =>
      rw [hs] at h
      exact absurd h.symm hne
    | fail e =>
      rw [hs] at h
      rw [hstep cursor _ hs (by simp)]
      exact h

theorem parseAt_extend (p : Parser) (data e : List Nat) :
    ∀ (gas offset : Nat) (r : ParseResult),
      parseAt p data gas offset = r → r ≠ .incomplete →
      parseAt p (data ++ e) gas offset = r := by
  intro gas
  induction gas with
  | zero =>
    intro offset r h hne
    rw [parseAt_zero] at h ⊢
    exact h
  | succ gas ih =>
    intro offset r h hne
    by_cases hoff : offset ≥ data.length
    · rw [parseAt_ge_len p data gas offset hoff] at h
      exact absurd h.symm hne
    push_neg at hoff
    have hoff2 : offset < (data ++ e).length := by rw [List.length_append]; omega
    have hgd : (data ++ e).getD offset 0 = data.getD offset 0 := getD_append_left hoff 0
    by_cases hb1 : data.getD offset 0 = 43
    · rw [parseAt_unfold_plus p data gas offset hoff hb1] at h
      rw [parseAt_unfold_plus p (data ++ e) gas offset hoff2 (by rw [hgd]; exact hb1)]
      cases hr : readLine data (offset + 1) with
      | none => rw [hr] at h; exact absurd h.symm hne
      | some ln =>
        rw [hr] at h
        rw [readLine_append e hr]
        exact h
    by_cases hb2 : data.getD offset 0 = 45
    · rw [parseAt_unfold_err p data gas offset hoff hb2] at h
      rw [parseAt_unfold_err p (data ++ e) gas offset hoff2 (by rw [hgd]; exact hb2)]
      cases hr : readLine data (offset + 1) with
      | none => rw [hr] at h; exact absurd h.symm hne
      | some ln =>
        rw [hr] at h
        rw [readLine_append e hr]
        exact h
    by_cases hb3 : data.getD offset 0 = 58
    · rw [parseAt_unfold_int p data gas offset hoff hb3] at h
      rw [parseAt_unfold_int p (data ++ e) gas offset hoff2 (by rw [hgd]; exact hb3)]
      cases hr : readLine data (offset + 1) with
      | none => rw [hr] at h; exact absurd h.symm hne
      | some ln =>
        rw [hr] at h
        rw [readLine_append e hr]
        exact h
    by_cases hb4 : data.getD offset 0 = 36
    · rw [parseAt_unfold_bulk p data gas offset hoff hb4] at h
      rw [parseAt_unfold_bulk p (data ++ e) gas offset hoff2 (by rw [hgd]; exact hb4)]
      cases hr : readLine data (offset + 1) with
      | none => rw [hr] at h; exact absurd h.symm hne
      | some ln =>
        obtain ⟨line, next⟩ := ln
        rw [hr] at h
        rw [readLine_append e hr]
        dsimp only at h ⊢
        cases hn : parseInt64 line with
        | none => rw [hn] at h; exact h
        | some n =>
          rw [hn] at h
          dsimp only at h ⊢
          have hbnd := readLine_bound hr
          by_cases hn1 : n = -1
          · rw [if_pos hn1] at h ⊢; exact h
          rw [if_neg hn1] at h ⊢
          by_cases hn2 : n < -1
          · rw [if_pos hn2] at h ⊢; exact h
          rw [if_neg hn2] at h ⊢
          by_cases hn3 : n > (p.maxBulkLen : Int)
          · rw [if_pos hn3] at h ⊢; exact h
          rw [if_neg hn3] at h ⊢
          by_cases hneed : next + n.toNat + 2 > data.length
          · rw [if_pos hneed] at h; exact absurd h.symm hne
          rw [if_neg hneed] at h
          rw [if_neg (by rw [List.length_append]; omega)]
          rw [getD_append_left (by omega) 0, getD_append_left (by omega) 0]
          rw [List.drop_append_of_le_length (by omega)]
          rw [List.take_append_of_le_length (by rw [List.length_drop]; omega)]
          exact h
    by_cases hb5 : data.getD offset 0 = 42
    · rw [parseAt_unfold_array p data gas offset hoff hb5] at h
      rw [parseAt_unfold_array p (data ++ e) gas offset hoff2 (by rw [hgd]; exact hb5)]
      cases hr : readLine data (offset + 1) with
      | none => rw [hr] at h; exact absurd h.symm hne
      | some ln =>
        obtain ⟨line, next⟩ := ln
        rw [hr] at h
        rw [readLine_append e hr]
        dsimp only at h ⊢
        cases hn : parseInt64 line with
        | none => rw [hn] at h; exact h
        | some n =>
          rw [hn] at h
          dsimp only at h ⊢
          by_cases hn1 : n < 0
          · rw [if_pos hn1] at h ⊢; exact h
          rw [if_neg hn1] at h ⊢
          by_cases hn2 : n > (p.maxArrayLen : Int)
          · rw [if_pos hn2] at h ⊢; exact h
          rw [if_neg hn2] at h ⊢
          cases hri : runItems (fun cur => parseAt p data gas cur) next n.toNat [] with
          | ok vs fin =>
            rw [hri] at h
            rw [runItems_extend (fun cur => parseAt p data gas cur)
              (fun cur => parseAt p (data ++ e) gas cur)
              (fun cur r2 hc hcne => ih cur r2 hc hcne) n.toNat next [] _ hri (by simp)]
            exact h
          | incomplete =>
            rw [hri] at h
            exact absurd h.symm hne
          | fail e2 =>
            rw [hri] at h
            rw [runItems_extend (fun cur => parseAt p data gas cur)
              (fun cur => parseAt p (data ++ e) gas cur)
              (fun cur r2 hc hcne => ih cur r2 hc hcne) n.toNat next [] _ hri (by simp)]
            exact h
    · rw [parseAt_unfold_unknown p data gas offset hoff hb1 hb2 hb3 hb4 hb5] at h
      rw [parseAt_unfold_unknown p (data ++ e) gas offset hoff2 (by rw [hgd]; exact hb1)
        (by rw [hgd]; exact hb2) (by rw [hgd]; exact hb3) (by rw [hgd]; exact hb4)
        (by rw [hgd]; exact hb5), hgd]
      exact h

/-! ## Truncation: a complete frame still decodes from any prefix that
contains it, and truncating inside it yields `incomplete` -/

theorem getD_take {l : List Nat} {j k : Nat} (h : k < j) (d : Nat) :
    (l.take j).getD k d = l.getD k d := by
  simp only [List.getD_eq_getElem?_getD, List.getElem?_take]
  rw [if_pos h]

theorem runItems_take (stepD stepT : Nat → ParseResult) (J : Nat)
    (hstep : ∀ cur v nx, stepD cur = .ok v nx →
      (nx ≤ J → stepT cur = .ok v nx) ∧ (J < nx → stepT cur = .incomplete))
    (hmono : ∀ cur v nx, stepD cur = .ok v nx → cur ≤ nx) :
    ∀ (count cursor : Nat) (acc vs : List Value) (fin : Nat),
      runItems stepD cursor count acc = .ok vs fin → cursor ≤ J →
      (fin ≤ J → runItems stepT cursor count acc = .ok vs fin) ∧
      (J < fin → runItems stepT cursor count acc = .incomplete)
  | 0, cursor, acc, vs, fin, h, hcur => by
    injection (show ItemsResult.ok acc cursor = .ok vs fin from h) with h1 h2
    subst h1
    subst h2
    exact ⟨fun _ => rfl, fun hJ => absurd hJ (by omega)⟩
  | count + 1, cursor, acc, vs, fin, h, hcur => by
    simp only [runItems] at h
    cases hs : stepD cursor with
    | ok v nx =>
      rw [hs] at h
      have hfin_ge : nx ≤ fin :=
        runItems_mono stepD hmono count nx (acc ++ [v]) vs fin h
      by_cases hnx : nx ≤ J
      · have hT : stepT cursor = .ok v nx := (hstep cursor v nx hs).1 hnx
        have ih := runItems_take stepD stepT J hstep hmono count nx (acc ++ [v]) vs fin h hnx
        constructor
        · intro hfin
          simp only [runItems]
          rw [hT]
          exact ih.1 hfin
        · intro hfin
          simp only [runItems]
          rw [hT]
          exact ih.2 hfin
      · push_neg at hnx
        have hT : stepT cursor = .incomplete := (hstep cursor v nx hs).2 hnx
        constructor
        · intro hfin
          omega
        · intro _
          simp only [runItems]
          rw [hT]
    | incomplete => rw [hs] at h; exact absurd h (by simp)
    | fail e => rw [hs] at h; exact absurd h (by simp)

set_option maxHeartbeats 1600000 in
theorem parseAt_take (p : Parser) (data : List Nat) :
    ∀ (gas offset : Nat) (v : Value) (nx : Nat),
      parseAt p data gas offset = .ok v nx → ∀ j,
      (nx ≤ j → parseAt p (data.take j) gas offset = .ok v nx) ∧
      (j < nx → parseAt p (data.take j) gas offset = .incomplete) := by
  intro gas
  induction gas with
  | zero =>
    intro offset v nx h j
    exact absurd (show ParseResult.fail (.depthExceeded p.maxDepth) = .ok v nx from h)
      (by simp)
  | succ gas ih =>
    intro offset v nx h j
    have hprog := parseAt_progress p data (gas + 1) offset v nx h
    by_cases hoff : offset ≥ data.length
    · rw [parseAt_ge_len p data gas offset hoff] at h
      exact absurd h (by simp)
    push_neg at hoff
    by_cases hjoff : j ≤ offset
    · refine ⟨fun hfin => by omega, fun _ => ?_⟩
      apply parseAt_ge_len
      rw [List.length_take]
      omega
    push_neg at hjoff
    have hofft : offset < (data.take j).length := by
      rw [List.length_take]
      omega
    have hgd : (data.take j).getD offset 0 = data.getD offset 0 := getD_take hjoff 0
    by_cases hb1 : data.getD offset 0 = 43
    · rw [parseAt_unfold_plus p data gas offset hoff hb1] at h
      cases hr : readLine data (offset + 1) with
      | none => rw [hr] at h; exact absurd h (by simp)
      | some ln =>
        obtain ⟨line, next⟩ := ln
        rw [hr] at h
        injection (show ParseResult.ok (.simpleString line) next = .ok v nx from h) with h1 h2
        subst h1
        subst h2
        constructor
        · intro hfin
          rw [parseAt_unfold_plus p (data.take j) gas offset hofft (by rw [hgd]; exact hb1)]
          rw [readLine_take hr j hfin]
        · intro hfin
          rw [parseAt_unfold_plus p (data.take j) gas offset hofft (by rw [hgd]; exact hb1)]
          rw [readLine_none_of_take hr hfin]
    by_cases hb2 : data.getD offset 0 = 45
    · rw [parseAt_unfold_err p data gas offset hoff hb2] at h
      cases hr : readLine data (offset + 1) with
      | none => rw [hr] at h; exact absurd h (by simp)
      | some ln =>
        obtain ⟨line, next⟩ := ln
        rw [hr] at h
        injection (show ParseResult.ok (.error line) next = .ok v nx from h) with h1 h2
        subst h1
        subst h2
        constructor
        · intro hfin
          rw [parseAt_unfold_err p (data.take j) gas offset hofft (by rw [hgd]; exact hb2)]
          rw [readLine_take hr j hfin]
        · intro hfin
          rw [parseAt_unfold_err p (data.take j) gas offset hofft (by rw [hgd]; exact hb2)]
          rw [readLine_none_of_take hr hfin]
    by_cases hb3 : data.getD offset 0 = 58
    · rw [parseAt_unfold_int p data gas offset hoff hb3] at h
      cases hr : readLine data (offset + 1) with
      | none => rw [hr] at h; exact absurd h (by simp)
      | some ln =>
        obtain ⟨line, next⟩ := ln
        rw [hr] at h
        dsimp only at h
        cases hn : parseInt64 line with
        | none => rw [hn] at h; exact absurd h (by simp)
        | some n =>
          rw [hn] at h
          injection (show ParseResult.ok (.integer n) next = .ok v nx from h) with h1 h2
          subst h1
          subst h2
          constructor
          · intro hfin
            rw [parseAt_unfold_int p (data.take j) gas offset hofft (by rw [hgd]; exact hb3)]
            rw [readLine_take hr j hfin]
            dsimp only
            rw [hn]
          · intro hfin
            rw [parseAt_unfold_int p (data.take j) gas offset hofft (by rw [hgd]; exact hb3)]
            rw [readLine_none_of_take hr hfin]
    by_cases hb4 : data.getD offset 0 = 36
    · rw [parseAt_unfold_bulk p data gas offset hoff hb4] at h
      cases hr : readLine data (offset + 1) with
      | none => rw [hr] at h; exact absurd h (by simp)
      | some ln =>
        obtain ⟨line, next⟩ := ln
        rw [hr] at h
        dsimp only at h
        have hbnd := readLine_bound hr
        cases hn : parseInt64 line with
        | none => rw [hn] at h; exact absurd h (by simp)
        | some n =>
          rw [hn] at h
          dsimp only at h
          by_cases hn1 : n = -1
          · rw [if_pos hn1] at h
            injection (show ParseResult.ok .null next = .ok v nx from h) with h1 h2
            subst h1
            subst h2
            constructor
            · intro hfin
              rw [parseAt_unfold_bulk p (data.take j) gas offset hofft (by rw [hgd]; exact hb4)]
              rw [readLine_take hr j hfin]
              dsimp only
              rw [hn]
              dsimp only
              rw [if_pos hn1]
            · intro hfin
              rw [parseAt_unfold_bulk p (data.take j) gas offset hofft (by rw [hgd]; exact hb4)]
              rw [readLine_none_of_take hr hfin]
          rw [if_neg hn1] at h
          by_cases hn2 : n < -1
          · rw [if_pos hn2] at h; exact absurd h (by simp)
          rw [if_neg hn2] at h
          by_cases hn3 : n > (p.maxBulkLen : Int)
          · rw [if_pos hn3] at h; exact absurd h (by simp)
          rw [if_neg hn3] at h
          by_cases hneed : next + n.toNat + 2 > data.length
          · rw [if_pos hneed] at h; exact absurd h (by simp)
          rw [if_neg hneed] at h
          push_neg at hneed
          by_cases hcrlf : data.getD (next + n.toNat) 0 = 13 ∧ data.getD (next + n.toNat + 1) 0 = 10
          · rw [if_pos hcrlf] at h
            injection (show ParseResult.ok (.bulkString ((data.drop next).take n.toNat))
              (next + n.toNat + 2) = .ok v nx from h) with h1 h2
            subst h1
            subst h2
            constructor
            · intro hfin
              rw [parseAt_unfold_bulk p (data.take j) gas offset hofft (by rw [hgd]; exact hb4)]
              rw [readLine_take hr j (by omega)]
              dsimp only
              rw [hn]
              dsimp only
              rw [if_neg hn1, if_neg hn2, if_neg hn3]
              rw [if_neg (by rw [List.length_take]; push_neg; omega)]
              rw [getD_take (by omega) 0, getD_take (by omega) 0, if_pos hcrlf]
              rw [List.drop_take, List.take_take, min_eq_left (by omega)]
            · intro hfin
              rw [parseAt_unfold_bulk p (data.take j) gas offset hofft (by rw [hgd]; exact hb4)]
              by_cases hjn : j < next
              · rw [readLine_none_of_take hr hjn]
              push_neg at hjn
              rw [readLine_take hr j hjn]
              dsimp only
              rw [hn]
              dsimp only
              rw [if_neg hn1, if_neg hn2, if_neg hn3]
              rw [if_pos (by rw [List.length_take]; omega)]
          · rw [if_neg hcrlf] at h; exact absurd h (by simp)
    by_cases hb5 : data.getD offset 0 = 42
    · rw [parseAt_unfold_array p data gas offset hoff hb5] at h
      cases hr : readLine data (offset + 1) with
      | none => rw [hr] at h; exact absurd h (by simp)
      | some ln =>
        obtain ⟨line, next⟩ := ln
        rw [hr] at h
        dsimp only at h
        have hbnd := readLine_bound hr
        cases hn : parseInt64 line with
        | none => rw [hn] at h; exact absurd h (by simp)
        | some n =>
          rw [hn] at h
          dsimp only at h
          by_cases hn1 : n < 0
          · rw [if_pos hn1] at h; exact absurd h (by simp)
          rw [if_neg hn1] at h
          by_cases hn2 : n > (p.maxArrayLen : Int)
          · rw [if_pos hn2] at h; exact absurd h (by simp)
          rw [if_neg hn2] at h
          cases hri : runItems (fun cur => parseAt p data gas cur) next n.toNat [] with
          | ok vs fin =>
            rw [hri] at h
            injection (show ParseResult.ok (.array vs) fin = .ok v nx from h) with h1 h2
            subst h1
            subst h2
            have hmono : ∀ cur w m, parseAt p data gas cur = .ok w m → cur ≤ m :=
              fun cur w m hw => le_of_lt (parseAt_progress p data gas cur w m hw).1
            have hnext_fin : next ≤ fin :=
              runItems_mono (fun cur => parseAt p data gas cur) hmono n.toNat next [] vs fin hri
            constructor
            · intro hfin
              rw [parseAt_unfold_array p (data.take j) gas offset hofft
                (by rw [hgd]; exact hb5)]
              rw [readLine_take hr j (by omega)]
              dsimp only
              rw [hn]
              dsimp only
              rw [if_neg hn1, if_neg hn2]
              have hit := runItems_take (fun cur => parseAt p data gas cur)
                (fun cur => parseAt p (data.take j) gas cur) j
                (fun cur w m hw => ih cur w m hw j) hmono n.toNat next [] vs fin hri
                (by omega)
              rw [hit.1 hfin]
            · intro hfin
              rw [parseAt_unfold_array p (data.take j) gas offset hofft
                (by rw [hgd]; exact hb5)]
              by_cases hjn : j < next
              · rw [readLine_none_of_take hr hjn]
              push_neg at hjn
              rw [readLine_take hr j hjn]
              dsimp only
              rw [hn]
              dsimp only
              rw [if_neg hn1, if_neg hn2]
              have hit := runItems_take (fun cur => parseAt p data gas cur)
                (fun cur => parseAt p (data.take j) gas cur) j
                (fun cur w m hw => ih cur w m hw j) hmono n.toNat next [] vs fin hri hjn
              rw [hit.2 hfin]
          | incomplete => rw [hri] at h; exact absurd h (by simp)
          | fail e => rw [hri] at h; exact absurd h (by simp)
    · rw [parseAt_unfold_unknown p data gas offset hoff hb1 hb2 hb3 hb4 hb5] at h
      exact absurd h (by simp)

/-! ## Shift: decoding is invariant under translating the buffer -/

/-- Shift the `next` offset of a decode result by `k`. -/
def shiftResult (k : Nat) : ParseResult → ParseResult
  | .ok v nx => .ok v (k + nx)
  | .incomplete => .incomplete
  | .fail e => .fail e

/-- Shift the final cursor of an items result by `k`. -/
def shiftItems (k : Nat) : ItemsResult → ItemsResult
  | .ok vs fin => .ok vs (k + fin)
  | .incomplete => .incomplete
  | .fail e => .fail e

theorem getD_append_right_add (l data : List Nat) (k d : Nat) :
    (l ++ data).getD (l.length + k) d = data.getD k d := by
  simp only [List.getD_eq_getElem?_getD,
    List.getElem?_append_right (by omega : l.length ≤ l.length + k)]
  congr 2
  omega

theorem readLine_shift (l data : List Nat) (off : Nat) :
    readLine (l ++ data) (l.length + off) =
      (readLine data off).map (fun ln => (ln.1, l.length + ln.2)) := by
  unfold readLine
  by_cases hoff : off ≥ data.length
  · rw [if_pos hoff, if_pos (by rw [List.length_append]; omega)]
    rfl
  · push_neg at hoff
    rw [if_neg (by rw [List.length_append]; push_neg; omega), if_neg (by push_neg; omega)]
    rw [List.drop_append]
    cases hf : findCRLF (data.drop off) with
    | none => rfl
    | some i =>
      have hadd : l.length + off + i + 2 = l.length + (off + i + 2) := by omega
      dsimp only [Option.map]
      rw [hadd]

theorem runItems_shift (step step2 : Nat → ParseResult) (k : Nat)
    (hstep : ∀ cur, step2 (k + cur) = shiftResult k (step cur)) :
    ∀ (count cursor : Nat) (acc : List Value),
      runItems step2 (k + cursor) count acc = shiftItems k (runItems step cursor count acc)
  | 0, cursor, acc => rfl
  | count + 1, cursor, acc => by
    simp only [runItems]
    rw [hstep cursor]
    cases hs : step cursor with
    | ok v nx =>
      dsimp only [shiftResult]
      exact runItems_shift step step2 k hstep count nx (acc ++ [v])
    | incomplete => rfl
    | fail e => rfl

set_option maxHeartbeats 1600000 in
theorem parseAt_shift (p : Parser) (l data : List Nat) :
    ∀ (gas offset : Nat),
      parseAt p (l ++ data) gas (l.length + offset) =
        shiftResult l.length (parseAt p data gas offset) := by
  intro gas
  induction gas with
  | zero => intro offset; rfl
  | succ gas ih =>
    intro offset
    by_cases hoff : offset ≥ data.length
    · rw [parseAt_ge_len p data gas offset hoff,
        parseAt_ge_len p (l ++ data) gas (l.length + offset)
          (by rw [List.length_append]; omega)]
      rfl
    push_neg at hoff
    have hoff2 : l.length + offset < (l ++ data).length := by rw [List.length_append]; omega
    have hgd : (l ++ data).getD (l.length + offset) 0 = data.getD offset 0 :=
      getD_append_right_add l data offset 0
    have hrl : readLine (l ++ data) (l.length + offset + 1) =
        (readLine data (offset + 1)).map (fun ln => (ln.1, l.length + ln.2)) :=
      readLine_shift l data (offset + 1)
    by_cases hb1 : data.getD offset 0 = 43
    · rw [parseAt_unfold_plus p data gas offset hoff hb1,
        parseAt_unfold_plus p (l ++ data) gas (l.length + offset) hoff2
          (by rw [hgd]; exact hb1), hrl]
      cases hr : readLine data (offset + 1) with
      | none => rfl
      | some ln => rfl
    by_cases hb2 : data.getD offset 0 = 45
    · rw [parseAt_unfold_err p data gas offset hoff hb2,
        parseAt_unfold_err p (l ++ data) gas (l.length + offset) hoff2
          (by rw [hgd]; exact hb2), hrl]
      cases hr : readLine data (offset + 1) with
      | none => rfl
      | some ln => rfl
    by_cases hb3 : data.getD offset 0 = 58
    · rw [parseAt_unfold_int p data gas offset hoff hb3,
        parseAt_unfold_int p (l ++ data) gas (l.length + offset) hoff2
          (by rw [hgd]; exact hb3), hrl]
      cases hr : readLine data (offset + 1) with
      | none => rfl
      | some ln =>
        obtain ⟨line, next⟩ := ln
        dsimp only [Option.map]
        cases hn : parseInt64 line with
        | none => rfl
        | some n => rfl
    by_cases hb4 : data.getD offset 0 = 36
    · rw [parseAt_unfold_bulk p data gas offset hoff hb4,
        parseAt_unfold_bulk p (l ++ data) gas (l.length + offset) hoff2
          (by rw [hgd]; exact hb4), hrl]
      cases hr : readLine data (offset + 1) with
      | none => rfl
      | some ln =>
        obtain ⟨line, next⟩ := ln
        dsimp only [Option.map]
        cases hn : parseInt64 line with
        | none => rfl
        | some n =>
          dsimp only
          by_cases hn1 : n = -1
          · rw [if_pos hn1, if_pos hn1]
            rfl
          rw [if_neg hn1, if_neg hn1]
          by_cases hn2 : n < -1
          · rw [if_pos hn2, if_pos hn2]
            rfl
          rw [if_neg hn2, if_neg hn2]
          by_cases hn3 : n > (p.maxBulkLen : Int)
          · rw [if_pos hn3, if_pos hn3]
            rfl
          rw [if_neg hn3, if_neg hn3]
          have hassoc : l.length + next + n.toNat = l.length + (next + n.toNat) := by omega
          by_cases hneed : next + n.toNat + 2 > data.length
          · rw [if_pos hneed,
              if_pos (by rw [List.length_append]; omega)]
            rfl
          rw [if_neg hneed, if_neg (by rw [List.length_append]; push_neg at hneed ⊢; omega)]
          rw [hassoc, getD_append_right_add l data (next + n.toNat) 0]
          have hassoc2 : l.length + (next + n.toNat) + 1 = l.length + (next + n.toNat + 1) := by
            omega
          rw [hassoc2, getD_append_right_add l data (next + n.toNat + 1) 0]
          by_cases hcrlf : data.getD (next + n.toNat) 0 = 13 ∧
              data.getD (next + n.toNat + 1) 0 = 10
          · rw [if_pos hcrlf, if_pos hcrlf]
            rw [List.drop_append]
            dsimp only [shiftResult]
            congr 1
          · rw [if_neg hcrlf, if_neg hcrlf]
            rfl
    by_cases hb5 : data.getD offset 0 = 42
    · rw [parseAt_unfold_array p data gas offset hoff hb5,
        parseAt_unfold_array p (l ++ data) gas (l.length + offset) hoff2
          (by rw [hgd]; exact hb5), hrl]
      cases hr : readLine data (offset + 1) with
      | none => rfl
      | some ln =>
        obtain ⟨line, next⟩ := ln
        dsimp only [Option.map]
        cases hn : parseInt64 line with
        | none => rfl
        | some n =>
          dsimp only
          by_cases hn1 : n < 0
          · rw [if_pos hn1, if_pos hn1]
            rfl
          rw [if_neg hn1, if_neg hn1]
          by_cases hn2 : n > (p.maxArrayLen : Int)
          · rw [if_pos hn2, if_pos hn2]
            rfl
          rw [if_neg hn2, if_neg hn2]
          rw [runItems_shift (fun cur => parseAt p data gas cur)
            (fun cur => parseAt p (l ++ data) gas cur) l.length
            (fun cur => ih cur) n.toNat next []]
          cases hri : runItems (fun cur => parseAt p data gas cur) next n.toNat [] with
          | ok vs fin => rfl
          | incomplete => rfl
          | fail e => rfl
    · rw [parseAt_unfold_unknown p data gas offset hoff hb1 hb2 hb3 hb4 hb5,
        parseAt_unfold_unknown p (l ++ data) gas (l.length + offset) hoff2
          (by rw [hgd]; exact hb1) (by rw [hgd]; exact hb2) (by rw [hgd]; exact hb3)
          (by rw [hgd]; exact hb4) (by rw [hgd]; exact hb5), hgd]
      rfl

/-! ## Decode-loop lemmas -/

theorem parseAt_buf_irrel (p : Parser) (b data : List Nat) (gas offset : Nat) :
    parseAt { p with buf := b } data gas offset = parseAt p data gas offset := rfl

theorem feedLoop_buf_irrel (p : Parser) (b data : List Nat) (fuel offset : Nat)
    (acc : List Value) :
    feedLoop { p with buf := b } data fuel offset acc = feedLoop p data fuel offset acc := rfl

/-- Prepend already-decoded frames to a loop result. -/
def prependFrames (vs : List Value) : LoopResult → LoopResult
  | .done vs2 off => .done (vs ++ vs2) off
  | .fail e => .fail e

/-- Shift the final offset of a loop result. -/
def shiftLoop (k : Nat) : LoopResult → LoopResult
  | .done vs off => .done vs (k + off)
  | .fail e => .fail e

theorem feedLoop_acc (p : Parser) (data : List Nat) :
    ∀ (fuel offset : Nat) (acc : List Value),
      feedLoop p data fuel offset acc = prependFrames acc (feedLoop p data fuel offset []) := by
  intro fuel
  induction fuel with
  | zero => intro offset acc; simp [feedLoop, feedLoopCore, prependFrames]
  | succ fuel ih =>
    intro offset acc
    simp only [feedLoop, feedLoopCore]
    split
    · cases hp : parseAtCore p.maxBulkLen p.maxArrayLen p.maxDepth data
          (p.maxDepth + 1) offset with
      | fail e => rfl
      | incomplete => simp [prependFrames]
      | ok v nx =>
        have h1 := ih nx (acc ++ [v])
        have h2 := ih nx ([] ++ [v])
        simp only [feedLoop] at h1 h2
        dsimp only
        rw [h1, h2]
        cases feedLoopCore p.maxBulkLen p.maxArrayLen p.maxDepth data fuel nx [] with
        | done vs2 off => simp [prependFrames]
        | fail e => rfl
    · simp [prependFrames]

theorem feedLoop_bounds (p : Parser) (data : List Nat) :
    ∀ (fuel offset : Nat) (acc vs : List Value) (off2 : Nat), offset ≤ data.length →
      feedLoop p data fuel offset acc = .done vs off2 →
      offset ≤ off2 ∧ off2 ≤ data.length := by
  intro fuel
  induction fuel with
  | zero =>
    intro offset acc vs off2 hle h
    injection (show LoopResult.done acc offset = .done vs off2 from h) with h1 h2
    omega
  | succ fuel ih =>
    intro offset acc vs off2 hle h
    simp only [feedLoop, feedLoopCore] at h
    split at h
    · rename_i hlt
      cases hp : parseAtCore p.maxBulkLen p.maxArrayLen p.maxDepth data
          (p.maxDepth + 1) offset with
      | fail e => rw [hp] at h; exact absurd h (by simp)
      | incomplete =>
        rw [hp] at h
        injection (show LoopResult.done acc offset = .done vs off2 from h) with h1 h2
        omega
      | ok v nx =>
        rw [hp] at h
        have hprog := parseAt_progress p data (p.maxDepth + 1) offset v nx hp
        have := ih nx (acc ++ [v]) vs off2 (by omega) h
        omega
    · injection (show LoopResult.done acc offset = .done vs off2 from h) with h1 h2
      omega

theorem feedLoop_fuel_add (p : Parser) (data : List Nat) :
    ∀ (fuel k offset : Nat) (acc : List Value), data.length - offset < fuel →
      feedLoop p data (fuel + k) offset acc = feedLoop p data fuel offset acc := by
  intro fuel
  induction fuel with
  | zero => intro k offset acc h; omega
  | succ fuel ih =>
    intro k offset acc h
    have hk : fuel + 1 + k = (fuel + k) + 1 := by omega
    rw [hk]
    simp only [feedLoop, feedLoopCore]
    split
    · rename_i hlt
      cases hp : parseAtCore p.maxBulkLen p.maxArrayLen p.maxDepth data
          (p.maxDepth + 1) offset with
      | fail e => rfl
      | incomplete => rfl
      | ok v nx =>
        have hprog := parseAt_progress p data (p.maxDepth + 1) offset v nx hp
        exact ih k nx (acc ++ [v]) (by omega)
    · rfl

theorem feedLoop_shift (p : Parser) (l data : List Nat) :
    ∀ (fuel offset : Nat) (acc : List Value),
      feedLoop p (l ++ data) fuel (l.length + offset) acc =
        shiftLoop l.length (feedLoop p data fuel offset acc) := by
  intro fuel
  induction fuel with
  | zero => intro offset acc; rfl
  | succ fuel ih =>
    intro offset acc
    simp only [feedLoop, feedLoopCore]
    by_cases hoff : offset < data.length
    · rw [if_pos (by rw [List.length_append]; omega), if_pos hoff]
      have hps : parseAtCore p.maxBulkLen p.maxArrayLen p.maxDepth (l ++ data)
          (p.maxDepth + 1) (l.length + offset) =
          shiftResult l.length (parseAtCore p.maxBulkLen p.maxArrayLen p.maxDepth data
            (p.maxDepth + 1) offset) := parseAt_shift p l data (p.maxDepth + 1) offset
      rw [hps]
      cases hp : parseAtCore p.maxBulkLen p.maxArrayLen p.maxDepth data
          (p.maxDepth + 1) offset with
      | fail e => rfl
      | incomplete => rfl
      | ok v nx =>
        dsimp only [shiftResult]
        exact ih nx (acc ++ [v])
    · rw [if_neg (by rw [List.length_append]; omega), if_neg hoff]
      rfl

theorem feedLoop_fuel_eq (p : Parser) (data : List Nat) (f1 f2 offset : Nat)
    (acc : List Value) (h1 : data.length - offset < f1) (h2 : data.length - offset < f2) :
    feedLoop p data f1 offset acc = feedLoop p data f2 offset acc := by
  have e1 := feedLoop_fuel_add p data ((data.length - offset) + 1)
    (f1 - (data.length - offset + 1)) offset acc (by omega)
  have e2 := feedLoop_fuel_add p data ((data.length - offset) + 1)
    (f2 - (data.length - offset + 1)) offset acc (by omega)
  rw [show f1 = (data.length - offset + 1) + (f1 - (data.length - offset + 1)) from by omega,
    e1, show f2 = (data.length - offset + 1) + (f2 - (data.length - offset + 1)) from by omega,
    e2]

theorem feedLoop_extend (p : Parser) (data ext : List Nat) :
    ∀ (fuel offset : Nat) (acc vs : List Value) (off2 : Nat),
      offset ≤ data.length →
      data.length - offset < fuel →
      feedLoop p data fuel offset acc = .done vs off2 →
      ∀ fuel2, (data ++ ext).length - offset < fuel2 →
        feedLoop p (data ++ ext) fuel2 offset acc =
          feedLoop p (data ++ ext) ((data ++ ext).length + 1 - off2) off2 vs := by
  intro fuel
  induction fuel with
  | zero => intro offset acc vs off2 hob had h; omega
  | succ fuel ih =>
    intro offset acc vs off2 hob had h fuel2 had2
    simp only [feedLoop, feedLoopCore] at h
    by_cases hlt : offset < data.length
    · rw [if_pos hlt] at h
      cases hp : parseAtCore p.maxBulkLen p.maxArrayLen p.maxDepth data
          (p.maxDepth + 1) offset with
      | fail e =>
        rw [hp] at h
        exact absurd h (by simp)
      | incomplete =>
        rw [hp] at h
        injection (show LoopResult.done acc offset = .done vs off2 from h) with h1 h2
        subst h1; subst h2
        exact feedLoop_fuel_eq p (data ++ ext) fuel2 ((data ++ ext).length + 1 - offset)
          offset acc had2 (by rw [List.length_append] at had2 ⊢; omega)
      | ok v nx =>
        rw [hp] at h
        have hprog := parseAt_progress p data (p.maxDepth + 1) offset v nx hp
        have hpe : parseAtCore p.maxBulkLen p.maxArrayLen p.maxDepth (data ++ ext)
            (p.maxDepth + 1) offset = .ok v nx :=
          parseAt_extend p data ext (p.maxDepth + 1) offset (.ok v nx) hp (by simp)
        obtain ⟨f2p, rfl⟩ : ∃ k, fuel2 = k + 1 := ⟨fuel2 - 1, by omega⟩
        simp only [feedLoop, feedLoopCore]
        rw [if_pos (by rw [List.length_append]; omega), hpe]
        exact ih nx (acc ++ [v]) vs off2 (by omega) (by omega) h f2p
          (by rw [List.length_append] at had2 ⊢; omega)
    · rw [if_neg hlt] at h
      injection (show LoopResult.done acc offset = .done vs off2 from h) with h1 h2
      subst h1; subst h2
      exact feedLoop_fuel_eq p (data ++ ext) fuel2 ((data ++ ext).length + 1 - offset)
        offset acc had2 (by rw [List.length_append] at had2 ⊢; omega)

theorem feedLoop_extend_fail (p : Parser) (data ext : List Nat) :
    ∀ (fuel offset : Nat) (acc : List Value) (e : ParseErr),
      feedLoop p data fuel offset acc = .fail e →
      ∀ fuelB, data.length - offset < fuelB →
        feedLoop p (data ++ ext) fuelB offset acc = .fail e := by
  intro fuel
  induction fuel with
  | zero =>
    intro offset acc e h
    exact absurd (show LoopResult.done acc offset = .fail e from h) (by simp)
  | succ fuel ih =>
    intro offset acc e h fuelB hadB
    simp only [feedLoop, feedLoopCore] at h
    by_cases hlt : offset < data.length
    · rw [if_pos hlt] at h
      cases hp : parseAtCore p.maxBulkLen p.maxArrayLen p.maxDepth data
          (p.maxDepth + 1) offset with
      | fail e2 =>
        rw [hp] at h
        injection (show LoopResult.fail e2 = .fail e from h) with h1
        subst h1
        have hpe : parseAtCore p.maxBulkLen p.maxArrayLen p.maxDepth (data ++ ext)
            (p.maxDepth + 1) offset = .fail e2 :=
          parseAt_extend p data ext (p.maxDepth + 1) offset (.fail e2) hp (by simp)
        obtain ⟨fBp, rfl⟩ : ∃ k, fuelB = k + 1 := ⟨fuelB - 1, by omega⟩
        simp only [feedLoop, feedLoopCore]
        rw [if_pos (by rw [List.length_append]; omega), hpe]
      | incomplete =>
        rw [hp] at h
        exact absurd (show LoopResult.done acc offset = .fail e from h) (by simp)
      | ok v nx =>
        rw [hp] at h
        have hprog := parseAt_progress p data (p.maxDepth + 1) offset v nx hp
        have hpe : parseAtCore p.maxBulkLen p.maxArrayLen p.maxDepth (data ++ ext)
            (p.maxDepth + 1) offset = .ok v nx :=
          parseAt_extend p data ext (p.maxDepth + 1) offset (.ok v nx) hp (by simp)
        obtain ⟨fBp, rfl⟩ : ∃ k, fuelB = k + 1 := ⟨fuelB - 1, by omega⟩
        simp only [feedLoop, feedLoopCore]
        rw [if_pos (by rw [List.length_append]; omega), hpe]
        exact ih nx (acc ++ [v]) e h fBp (by omega)
    · rw [if_neg hlt] at h
      exact absurd (show LoopResult.done acc offset = .fail e from h) (by simp)

theorem feedLoop_prefix_done (p : Parser) (data ext : List Nat) (vsAll : List Value)
    (offAll : Nat)
    (h : feedLoop p (data ++ ext) ((data ++ ext).length + 1) 0 [] = .done vsAll offAll) :
    ∃ vs1 off1, feedLoop p data (data.length + 1) 0 [] = .done vs1 off1 := by
  cases hd : feedLoop p data (data.length + 1) 0 [] with
  | done vs1 off1 => exact ⟨vs1, off1, rfl⟩
  | fail e =>
    have := feedLoop_extend_fail p data ext (data.length + 1) 0 [] e hd
      ((data ++ ext).length + 1) (by rw [List.length_append]; omega)
    rw [h] at this
    exact absurd this (by simp)

theorem Feed_chunk_step (p : Parser) (B c : List Nat) (off : Nat)
    (vs vsAll : List Value) (off2 : Nat)
    (hoff : off ≤ B.length)
    (hB : feedLoop p B (B.length + 1) 0 [] = .done vs off)
    (hB2 : feedLoop p (B ++ c) ((B ++ c).length + 1) 0 [] = .done vsAll off2) :
    ∃ vs2, Feed { p with buf := B.drop off } c =
      ((vs2, none), { p with buf := (B ++ c).drop off2 }) ∧ vsAll = vs ++ vs2 := by
  have hfeed : Feed { p with buf := B.drop off } c =
      (if (B.drop off ++ c).isEmpty then (([], none), { p with buf := [] })
       else
        match feedLoop p (B.drop off ++ c) ((B.drop off ++ c).length + 1) 0 [] with
        | .fail e => (([], some e), { p with buf := [] })
        | .done vs offset =>
            ((vs, none), { p with buf := (B.drop off ++ c).drop offset })) := rfl
  by_cases hemp : (B.drop off ++ c).isEmpty
  · have hnil : B.drop off = [] ∧ c = [] := by
      rw [List.isEmpty_iff, List.append_eq_nil] at hemp
      exact hemp
    have hoffeq : off = B.length := by
      have := List.drop_eq_nil_iff.mp hnil.1
      omega
    have hceq : c = [] := hnil.2
    subst hceq
    rw [List.append_nil] at hB2
    rw [hB2] at hB
    injection (show LoopResult.done vsAll off2 = .done vs off from hB) with h1 h2
    refine ⟨[], ?_, by rw [h1, List.append_nil]⟩
    rw [hfeed, if_pos hemp]
    have hdrop : (B ++ []).drop off2 = ([] : List Nat) := by
      rw [List.append_nil, h2, hoffeq]
      exact List.drop_eq_nil_iff.mpr (by omega)
    rw [hdrop]
  · have hsplit : B ++ c = B.take off ++ (B.drop off ++ c) := by
      rw [← List.append_assoc, List.take_append_drop]
    have hlen : (B.take off).length = off := by
      rw [List.length_take]; omega
    have hshift : feedLoop p (B ++ c) ((B.drop off ++ c).length + 1) off [] =
        shiftLoop off (feedLoop p (B.drop off ++ c) ((B.drop off ++ c).length + 1) 0 []) := by
      have h0 := feedLoop_shift p (B.take off) (B.drop off ++ c)
        ((B.drop off ++ c).length + 1) 0 []
      rw [hlen] at h0
      rw [hsplit]
      simpa using h0
    have hext := feedLoop_extend p B c (B.length + 1) 0 [] vs off (by omega) (by omega)
      hB ((B ++ c).length + 1) (by rw [List.length_append]; omega)
    have hacc := feedLoop_acc p (B ++ c) ((B ++ c).length + 1 - off) off vs
    have hfeq : (B ++ c).length + 1 - off = (B.drop off ++ c).length + 1 := by
      rw [List.length_append, List.length_append, List.length_drop]; omega
    rw [hB2, hacc, hfeq, hshift] at hext
    cases hq : feedLoop p (B.drop off ++ c) ((B.drop off ++ c).length + 1) 0 [] with
    | fail e =>
      rw [hq] at hext
      exact absurd hext (by simp [shiftLoop, prependFrames])
    | done vs2 o2 =>
      rw [hq] at hext
      simp only [shiftLoop, prependFrames] at hext
      injection hext with h1 h2
      refine ⟨vs2, ?_, h1⟩
      rw [hfeed, if_neg hemp, hq]
      have hdrop : (B.drop off ++ c).drop o2 = (B ++ c).drop off2 := by
        rw [h2, ← List.drop_append_of_le_length hoff, List.drop_drop, Nat.add_comm]
      dsimp only
      rw [hdrop]

theorem feedList_agrees_aux (p : Parser) :
    ∀ (chunks : List (List Nat)) (B : List Nat) (off : Nat) (vs vsAll : List Value)
      (offAll : Nat),
      off ≤ B.length →
      feedLoop p B (B.length + 1) 0 [] = .done vs off →
      feedLoop p (B ++ chunks.flatten) ((B ++ chunks.flatten).length + 1) 0 [] =
        .done vsAll offAll →
      ∃ vs2, feedList { p with buf := B.drop off } chunks =
        ((vs2, []), { p with buf := (B ++ chunks.flatten).drop offAll }) ∧
        vsAll = vs ++ vs2 := by
  intro chunks
  induction chunks with
  | nil =>
    intro B off vs vsAll offAll hoff hB hB2
    rw [List.flatten_nil, List.append_nil] at hB2
    rw [hB2] at hB
    injection (show LoopResult.done vsAll offAll = .done vs off from hB) with h1 h2
    refine ⟨[], ?_, by rw [h1, List.append_nil]⟩
    simp only [feedList]
    rw [List.flatten_nil, List.append_nil, ← h2]
  | cons c cs ih =>
    intro B off vs vsAll offAll hoff hB hB2
    have hflat : (c :: cs).flatten = c ++ cs.flatten := rfl
    rw [hflat, ← List.append_assoc] at hB2
    obtain ⟨vs1, off1, hBc⟩ := feedLoop_prefix_done p (B ++ c) cs.flatten vsAll offAll hB2
    obtain ⟨vs2a, hstep, hvs1⟩ := Feed_chunk_step p B c off vs vs1 off1 hoff hB hBc
    have hoff1 : off1 ≤ (B ++ c).length :=
      (feedLoop_bounds p (B ++ c) ((B ++ c).length + 1) 0 [] vs1 off1 (by omega) hBc).2
    obtain ⟨vs2b, hrest, hvsAll⟩ := ih (B ++ c) off1 vs1 vsAll offAll hoff1 hBc hB2
    refine ⟨vs2a ++ vs2b, ?_, by rw [hvsAll, hvs1, List.append_assoc]⟩
    simp only [feedList]
    rw [hstep, hrest]
    simp only [Option.toList, List.nil_append, List.append_nil]
    rw [hflat, ← List.append_assoc]

/-! ## C3: chunked feeding versus a single feed -/

/-- A single error-free `Feed` call determines every chunked replay: if the
whole stream decodes cleanly in one call, any partition fed chunk by chunk
yields the same frames, no errors, and the same final parser state. -/
theorem chunked_of_single (chunks : List (List Nat)) (frames : List Value) (p1 : Parser)
    (h : Feed NewParser chunks.flatten = ((frames, none), p1)) :
    feedList NewParser chunks = ((frames, []), p1) := by
  have hb : Feed NewParser chunks.flatten =
      (if (chunks.flatten).isEmpty then (([], none), { NewParser with buf := [] })
       else
        match feedLoop NewParser chunks.flatten (chunks.flatten.length + 1) 0 [] with
        | .fail e => (([], some e), { NewParser with buf := [] })
        | .done vs offset =>
            ((vs, none), { NewParser with buf := chunks.flatten.drop offset })) := rfl
  have hmain : ∃ offf,
      feedLoop NewParser chunks.flatten (chunks.flatten.length + 1) 0 [] =
        .done frames offf ∧
      p1 = { NewParser with buf := chunks.flatten.drop offf } := by
    by_cases hemp : (chunks.flatten).isEmpty
    · rw [hb, if_pos hemp] at h
      have hfl : chunks.flatten = [] := by rwa [List.isEmpty_iff] at hemp
      injection h with h1 h2
      injection h1 with h11 h12
      refine ⟨0, ?_, ?_⟩
      · rw [hfl, ← h11]; rfl
      · rw [hfl]; exact h2.symm
    · rw [hb, if_neg hemp] at h
      cases hfl : feedLoop NewParser chunks.flatten (chunks.flatten.length + 1) 0 [] with
      | fail e =>
        rw [hfl] at h
        dsimp only at h
        injection h with h1 h2
        injection h1 with h11 h12
        exact absurd h12 (by simp)
      | done vsf offf =>
        rw [hfl] at h
        dsimp only at h
        injection h with h1 h2
        injection h1 with h11 h12
        exact ⟨offf, by rw [h11], h2.symm⟩
  obtain ⟨offf, hfeedloop, hp1⟩ := hmain
  obtain ⟨vs2, hlist, hvs⟩ := feedList_agrees_aux NewParser chunks [] 0 [] frames offf
    (Nat.zero_le _) rfl hfeedloop
  simp only [List.nil_append] at hvs
  subst hvs
  rw [hp1]
  exact hlist

/-- C3 counterexample: for the stream `+OK\r\n!x\r\n`, a single `Feed` hits the
unknown-prefix error and returns no frames at all, while feeding the same
bytes as the two chunks `+OK\r\n` / `!x\r\n` delivers the `OK` frame from the
first call; the concatenated chunked frame sequences differ from the
single-call one. -/
theorem chunked_feed_counterexample :
    ([[43, 79, 75, 13, 10], [33, 120, 13, 10]] : List (List Nat)).flatten =
        [43, 79, 75, 13, 10, 33, 120, 13, 10] ∧
      (feedList NewParser [[43, 79, 75, 13, 10], [33, 120, 13, 10]]).1.1 =
        [Value.simpleString [79, 75]] ∧
      (Feed NewParser [43, 79, 75, 13, 10, 33, 120, 13, 10]).1.1 = [] := by
  decide

/-- **C3** (corrected): the spec's unconditional chunk-invariance fails when the
stream contains a malformed frame, because an erroring `Feed` call discards the
frames it decoded earlier in that same call.  Amended: for every byte sequence
that decodes without error in a single `Feed` call on a fresh parser, feeding
any partition of it across successive `Feed` calls on a fresh parser yields the
same concatenated sequence of decoded frames, with no errors and the same
final parser state. -/
theorem chunked_feed_matches_single (chunks : List (List Nat)) (frames : List Value)
    (p1 : Parser)
    (h : Feed NewParser chunks.flatten = ((frames, none), p1)) :
    feedList NewParser chunks = ((frames, []), p1) :=
  chunked_of_single chunks frames p1 h

theorem chunked_feed_matches_single_witness :
    Feed NewParser ([[43, 79], [75, 13, 10]] : List (List Nat)).flatten =
        (([Value.simpleString [79, 75]], none), { NewParser with buf := [] }) ∧
      feedList NewParser [[43, 79], [75, 13, 10]] =
        (([Value.simpleString [79, 75]], []), { NewParser with buf := [] }) :=
  ⟨by decide,
    chunked_feed_matches_single [[43, 79], [75, 13, 10]] [Value.simpleString [79, 75]]
      { NewParser with buf := [] } (by decide)⟩

/-! ## Decimal round-trip: `strconv.FormatInt` output re-parses to the same
number -/

theorem digitsValAux_append (l1 l2 : List Nat) : ∀ acc,
    digitsValAux acc (l1 ++ l2) =
      match digitsValAux acc l1 with
      | none => none
      | some m => digitsValAux m l2 := by
  induction l1 with
  | nil => intro acc; rfl
  | cons b r ih =>
    intro acc
    simp only [List.cons_append, digitsValAux, List.append_eq]
    by_cases hd : 48 ≤ b ∧ b ≤ 57
    · rw [if_pos hd, if_pos hd, ih]
    · rw [if_neg hd, if_neg hd]

theorem digitsValAux_natDigitsAux : ∀ (fuel n acc : Nat), n ≤ fuel →
    digitsValAux acc (natDigitsAux fuel n) =
      some (acc * 10 ^ (natDigitsAux fuel n).length + n) := by
  intro fuel
  induction fuel with
  | zero =>
    intro n acc h
    have hn : n = 0 := by omega
    subst hn
    simp [natDigitsAux, digitsValAux]
  | succ fuel ih =>
    intro n acc h
    by_cases hn : n = 0
    · subst hn
      simp [natDigitsAux, digitsValAux]
    · simp only [natDigitsAux, if_neg hn]
      rw [digitsValAux_append, ih (n / 10) acc (by omega)]
      simp only [digitsValAux]
      rw [if_pos (by omega)]
      rw [show 48 + n % 10 - 48 = n % 10 from by omega,
        show (natDigitsAux fuel (n / 10) ++ [48 + n % 10]).length =
          (natDigitsAux fuel (n / 10)).length + 1 from by simp,
        pow_succ]
      refine congrArg some ?_
      calc (acc * 10 ^ (natDigitsAux fuel (n / 10)).length + n / 10) * 10 + n % 10
          = acc * (10 ^ (natDigitsAux fuel (n / 10)).length * 10) +
              (10 * (n / 10) + n % 10) := by ring
        _ = acc * (10 ^ (natDigitsAux fuel (n / 10)).length * 10) + n := by
            rw [Nat.div_add_mod]

theorem decDigitsVal_natDecimal (m : Nat) : decDigitsVal (natDecimal m) = some m := by
  by_cases hm : m = 0
  · subst hm; decide
  · obtain ⟨k, rfl⟩ : ∃ k, m = k + 1 := ⟨m - 1, by omega⟩
    simp only [natDecimal, if_neg hm, decDigitsVal]
    have hne : (natDigitsAux (k + 1) (k + 1)).isEmpty = false := by
      simp [natDigitsAux]
    rw [hne]
    simp only [Bool.false_eq_true, if_false]
    rw [digitsValAux_natDigitsAux (k + 1) (k + 1) 0 (Nat.le_refl _)]
    simp

theorem natDigitsAux_digits : ∀ (fuel n : Nat), ∀ b ∈ natDigitsAux fuel n,
    48 ≤ b ∧ b ≤ 57 := by
  intro fuel
  induction fuel with
  | zero => intro n b hb; simp [natDigitsAux] at hb
  | succ fuel ih =>
    intro n b hb
    by_cases hn : n = 0
    · subst hn; simp [natDigitsAux] at hb
    · simp only [natDigitsAux, if_neg hn, List.mem_append, List.mem_singleton] at hb
      rcases hb with hb | hb
      · exact ih _ b hb
      · subst hb
        constructor <;> omega

theorem natDecimal_digits (m : Nat) : ∀ b ∈ natDecimal m, 48 ≤ b ∧ b ≤ 57 := by
  intro b hb
  by_cases hm : m = 0
  · subst hm
    simp [natDecimal] at hb
    omega
  · simp only [natDecimal, if_neg hm] at hb
    exact natDigitsAux_digits m m b hb

theorem natDecimal_ne_nil (m : Nat) : natDecimal m ≠ [] := by
  by_cases hm : m = 0
  · subst hm; decide
  · obtain ⟨k, rfl⟩ : ∃ k, m = k + 1 := ⟨m - 1, by omega⟩
    simp [natDecimal, natDigitsAux]

theorem parseInt64_natDecimal (m : Nat) (h : (m : Int) ≤ int64Max) :
    parseInt64 (natDecimal m) = some (m : Int) := by
  cases hd : natDecimal m with
  | nil => exact absurd hd (natDecimal_ne_nil m)
  | cons b l =>
    have hb : 48 ≤ b ∧ b ≤ 57 := natDecimal_digits m b (by rw [hd]; exact List.mem_cons_self b l)
    have hval : decDigitsVal (b :: l) = some m := by
      rw [← hd]; exact decDigitsVal_natDecimal m
    simp only [parseInt64]
    split
    · rename_i rest heq
      injection heq with h1 _
      omega
    · rename_i rest heq
      injection heq with h1 _
      omega
    · rw [hval]
      dsimp only
      rw [if_pos h]

theorem parseInt64_intDecimal (n : Int) (h1 : int64Min ≤ n) (h2 : n ≤ int64Max) :
    parseInt64 (intDecimal n) = some n := by
  by_cases hn : n < 0
  · simp only [intDecimal, if_pos hn]
    have h45 : parseInt64 (45 :: natDecimal n.natAbs) =
        (match decDigitsVal (natDecimal n.natAbs) with
         | none => none
         | some m => if (m : Int) ≤ 2 ^ 63 then some (-(m : Int)) else none) := rfl
    rw [h45, decDigitsVal_natDecimal]
    dsimp only
    have hpow : ((2 : Int) ^ 63) = 9223372036854775808 := by norm_num
    rw [int64Min_lit] at h1
    rw [if_pos (by rw [hpow]; omega)]
    refine congrArg some ?_
    omega
  · simp only [intDecimal, if_neg hn]
    rw [parseInt64_natDecimal n.toNat (by rw [Int.toNat_of_nonneg (by omega)]; exact h2)]
    rw [Int.toNat_of_nonneg (by omega)]

/-! ## `readLine` on a serialized header line -/

theorem findCRLF_clean (line : List Nat) (rest : List Nat)
    (h : hasRESPNewline line = false) :
    findCRLF (line ++ 13 :: 10 :: rest) = some line.length := by
  induction line with
  | nil => simp [findCRLF]
  | cons b l ih =>
    rw [hasRESPNewline_cons] at h
    simp only [Bool.or_eq_false_iff, decide_eq_false_iff_not] at h
    have hb : ¬(b = 13) := h.1.1
    have hl : hasRESPNewline l = false := h.2
    cases l with
    | nil => simp [findCRLF]
    | cons c l2 =>
      simp only [List.cons_append, findCRLF, List.append_eq]
      rw [if_neg (by intro hc; exact hb hc.1)]
      have hrec := ih hl
      simp only [List.cons_append] at hrec
      rw [hrec]
      rfl

theorem readLine_clean (b : Nat) (line rest : List Nat)
    (h : hasRESPNewline line = false) :
    readLine (b :: (line ++ 13 :: 10 :: rest)) 1 = some (line, line.length + 3) := by
  simp only [readLine]
  rw [if_neg (by simp only [ge_iff_le, List.length_cons, List.length_append]; omega)]
  have hdrop : (b :: (line ++ 13 :: 10 :: rest)).drop 1 = line ++ 13 :: 10 :: rest := rfl
  rw [hdrop, findCRLF_clean line rest h]
  dsimp only
  rw [List.take_left]
  refine congrArg some ?_
  refine congrArg (Prod.mk line) ?_
  omega

/-! ## C1: encode/decode round-trip -/

mutual
/-- Nesting height of a value: each array level consumes one unit of
`parseAt` depth budget. -/
def maxNest : Value → Nat
  | .array vs => 1 + maxNestList vs
  | _ => 1
def maxNestList : List Value → Nat
  | [] => 0
  | v :: r => max (maxNest v) (maxNestList r)
end

mutual
/-- Within a fresh parser's representable range: no CR/LF in `SimpleString` and
`Error` payloads, `int64`-range integers (Go `Value.Int` is an `int64`), bulk
payloads of at most `maxBulkLen` bytes and arrays of at most `maxArrayLen`
children, recursively. -/
def withinLimits : Value → Bool
  | .simpleString s => !hasRESPNewline s
  | .error s => !hasRESPNewline s
  | .integer n => decide (int64Min ≤ n) && decide (n ≤ int64Max)
  | .bulkString s => decide (s.length ≤ NewParser.maxBulkLen)
  | .null => true
  | .array vs => decide (vs.length ≤ NewParser.maxArrayLen) && withinLimitsList vs
def withinLimitsList : List Value → Bool
  | [] => true
  | v :: r => withinLimits v && withinLimitsList r
end

theorem maxNest_pos : ∀ (v : Value), 1 ≤ maxNest v
  | .simpleString _ => Nat.le_refl 1
  | .error _ => Nat.le_refl 1
  | .integer _ => Nat.le_refl 1
  | .bulkString _ => Nat.le_refl 1
  | .null => Nat.le_refl 1
  | .array vs => by simp [maxNest]

mutual
theorem containsBadInline_of_within : ∀ (v : Value), withinLimits v = true →
    containsBadInline v = false
  | .simpleString s, h => by
    simp only [withinLimits, Bool.not_eq_eq_eq_not, Bool.not_true] at h
    simpa [containsBadInline] using h
  | .error s, h => by
    simp only [withinLimits, Bool.not_eq_eq_eq_not, Bool.not_true] at h
    simpa [containsBadInline] using h
  | .integer _, _ => rfl
  | .bulkString _, _ => rfl
  | .null, _ => rfl
  | .array vs, h => by
    simp only [withinLimits, Bool.and_eq_true] at h
    simp only [containsBadInline]
    exact containsBadInlineList_of_within vs h.2
theorem containsBadInlineList_of_within : ∀ (vs : List Value),
    withinLimitsList vs = true → containsBadInlineList vs = false
  | [], _ => rfl
  | v :: r, h => by
    simp only [withinLimitsList, Bool.and_eq_true] at h
    simp only [containsBadInlineList, Bool.or_eq_false_iff]
    exact ⟨containsBadInline_of_within v h.1, containsBadInlineList_of_within r h.2⟩
end

theorem parse_serialize : ∀ (gas : Nat),
    (∀ (v : Value), withinLimits v = true → maxNest v ≤ gas → ∀ (tail : List Nat),
        parseAt NewParser (serializeSpec v ++ tail) gas 0 =
          .ok v (serializeSpec v).length) ∧
    (∀ (vs : List Value), withinLimitsList vs = true → maxNestList vs ≤ gas →
      ∀ (l tail : List Nat) (acc : List Value),
        runItems (fun cur => parseAt NewParser (l ++ (serializeSpecList vs ++ tail)) gas cur)
          l.length vs.length acc =
          .ok (acc ++ vs) (l.length + (serializeSpecList vs).length)) := by
  intro gas
  induction gas with
  | zero =>
    constructor
    · intro v hw hn tail
      have := maxNest_pos v
      omega
    · intro vs hw hn l tail acc
      cases vs with
      | nil => simp [runItems, serializeSpecList]
      | cons v r =>
        have h1 := maxNest_pos v
        have h2 : maxNest v ≤ maxNestList (v :: r) := by
          simp only [maxNestList]
          exact le_max_left _ _
        omega
  | succ g ih =>
    obtain ⟨ihP, ihQ⟩ := ih
    have hMBL : NewParser.maxBulkLen = 536870912 := rfl
    have hMAL : NewParser.maxArrayLen = 1048576 := rfl
    have hP : ∀ (v : Value), withinLimits v = true → maxNest v ≤ g + 1 →
        ∀ (tail : List Nat),
        parseAt NewParser (serializeSpec v ++ tail) (g + 1) 0 =
          .ok v (serializeSpec v).length := by
      intro v hw hn tail
      cases v with
      | simpleString s =>
        have hs : hasRESPNewline s = false := by
          simpa only [withinLimits, Bool.not_eq_eq_eq_not, Bool.not_true] using hw
        have hdata : serializeSpec (.simpleString s) ++ tail =
            43 :: (s ++ 13 :: 10 :: tail) := by simp [serializeSpec]
        rw [hdata, parseAt_unfold_plus NewParser (43 :: (s ++ 13 :: 10 :: tail)) g 0 (by simp) rfl,
          readLine_clean 43 s tail hs]
        dsimp only
        rw [show (serializeSpec (.simpleString s)).length = s.length + 3 from by
          simp [serializeSpec]]
      | error s =>
        have hs : hasRESPNewline s = false := by
          simpa only [withinLimits, Bool.not_eq_eq_eq_not, Bool.not_true] using hw
        have hdata : serializeSpec (.error s) ++ tail =
            45 :: (s ++ 13 :: 10 :: tail) := by simp [serializeSpec]
        rw [hdata, parseAt_unfold_err NewParser (45 :: (s ++ 13 :: 10 :: tail)) g 0 (by simp) rfl,
          readLine_clean 45 s tail hs]
        dsimp only
        rw [show (serializeSpec (.error s)).length = s.length + 3 from by
          simp [serializeSpec]]
      | integer n =>
        simp only [withinLimits, Bool.and_eq_true, decide_eq_true_eq] at hw
        have hdata : serializeSpec (.integer n) ++ tail =
            58 :: (intDecimal n ++ 13 :: 10 :: tail) := by simp [serializeSpec]
        rw [hdata, parseAt_unfold_int NewParser (58 :: (intDecimal n ++ 13 :: 10 :: tail)) g 0 (by simp) rfl,
          readLine_clean 58 (intDecimal n) tail (hasRESPNewline_intDecimal n)]
        dsimp only
        rw [parseInt64_intDecimal n hw.1 hw.2]
        dsimp only
        rw [show (serializeSpec (.integer n)).length = (intDecimal n).length + 3 from by
          simp [serializeSpec]]
      | null =>
        have hdata : serializeSpec .null ++ tail =
            36 :: 45 :: 49 :: 13 :: 10 :: tail := rfl
        rw [hdata, parseAt_unfold_bulk NewParser (36 :: 45 :: 49 :: 13 :: 10 :: tail) g 0 (by simp) rfl]
        have hrl := readLine_clean 36 [45, 49] tail (by decide)
        simp only [List.cons_append, List.nil_append] at hrl
        rw [hrl]
        dsimp only
        rw [show parseInt64 [45, 49] = some (-1) from by decide]
        dsimp only
        rw [if_pos rfl]
        rfl
      | bulkString s =>
        simp only [withinLimits, decide_eq_true_eq] at hw
        rw [hMBL] at hw
        have hdata : serializeSpec (.bulkString s) ++ tail =
            36 :: (natDecimal s.length ++ 13 :: 10 :: (s ++ 13 :: 10 :: tail)) := by
          simp [serializeSpec]
        rw [hdata, parseAt_unfold_bulk NewParser (36 :: (natDecimal s.length ++ 13 :: 10 :: (s ++ 13 :: 10 :: tail))) g 0 (by simp) rfl,
          readLine_clean 36 (natDecimal s.length) _ (hasRESPNewline_natDecimal _)]
        dsimp only
        rw [parseInt64_natDecimal s.length (by rw [int64Max_lit]; omega)]
        dsimp only
        rw [if_neg (by omega), if_neg (by omega),
          if_neg (by rw [hMBL]; push_cast; omega)]
        simp only [Int.toNat_natCast]
        rw [if_neg (by simp only [List.length_cons, List.length_append]; omega)]
        have hsplit : 36 :: (natDecimal s.length ++ 13 :: 10 :: (s ++ 13 :: 10 :: tail)) =
            (36 :: natDecimal s.length ++ 13 :: 10 :: s) ++ 13 :: 10 :: tail := by
          simp
        have hplen : (36 :: natDecimal s.length ++ 13 :: 10 :: s).length =
            (natDecimal s.length).length + 3 + s.length := by
          simp only [List.length_cons, List.length_append]
          omega
        have hcr : (36 :: (natDecimal s.length ++ 13 :: 10 ::
            (s ++ 13 :: 10 :: tail))).getD ((natDecimal s.length).length + 3 + s.length)
              0 = 13 := by
          rw [hsplit, ← hplen,
            show (36 :: natDecimal s.length ++ 13 :: 10 :: s).length =
              (36 :: natDecimal s.length ++ 13 :: 10 :: s).length + 0 from by omega,
            getD_append_right_add]
          rfl
        have hlf : (36 :: (natDecimal s.length ++ 13 :: 10 ::
            (s ++ 13 :: 10 :: tail))).getD
              ((natDecimal s.length).length + 3 + s.length + 1) 0 = 10 := by
          rw [hsplit, ← hplen, getD_append_right_add]
          rfl
        rw [if_pos ⟨hcr, hlf⟩]
        have hdrop : (36 :: (natDecimal s.length ++ 13 :: 10 ::
            (s ++ 13 :: 10 :: tail))).drop ((natDecimal s.length).length + 3) =
            s ++ 13 :: 10 :: tail := by
          rw [show 36 :: (natDecimal s.length ++ 13 :: 10 :: (s ++ 13 :: 10 :: tail)) =
              (36 :: natDecimal s.length ++ [13, 10]) ++ (s ++ 13 :: 10 :: tail) from by
                simp,
            show (natDecimal s.length).length + 3 =
              (36 :: natDecimal s.length ++ [13, 10]).length from by simp,
            List.drop_left]
        rw [hdrop, List.take_left]
        rw [show (serializeSpec (.bulkString s)).length =
            (natDecimal s.length).length + 3 + s.length + 2 from by
          simp [serializeSpec]; omega]
      | array vs =>
        simp only [withinLimits, Bool.and_eq_true, decide_eq_true_eq] at hw
        obtain ⟨hwlen, hwl⟩ := hw
        rw [hMAL] at hwlen
        have hnl : maxNestList vs ≤ g := by
          simp only [maxNest] at hn
          omega
        have hdata : serializeSpec (.array vs) ++ tail =
            42 :: (natDecimal vs.length ++ 13 :: 10 :: (serializeSpecList vs ++ tail)) := by
          simp [serializeSpec]
        rw [hdata, parseAt_unfold_array NewParser (42 :: (natDecimal vs.length ++ 13 :: 10 :: (serializeSpecList vs ++ tail))) g 0 (by simp) rfl,
          readLine_clean 42 (natDecimal vs.length) _ (hasRESPNewline_natDecimal _)]
        dsimp only
        rw [parseInt64_natDecimal vs.length (by rw [int64Max_lit]; omega)]
        dsimp only
        rw [if_neg (by omega), if_neg (by rw [hMAL]; push_cast; omega)]
        simp only [Int.toNat_natCast]
        have hsplit : 42 :: (natDecimal vs.length ++ 13 :: 10 ::
            (serializeSpecList vs ++ tail)) =
            (42 :: natDecimal vs.length ++ [13, 10]) ++ (serializeSpecList vs ++ tail) := by
          simp
        rw [hsplit,
          show (natDecimal vs.length).length + 3 =
            (42 :: natDecimal vs.length ++ [13, 10]).length from by simp,
          ihQ vs hwl hnl (42 :: natDecimal vs.length ++ [13, 10]) tail []]
        dsimp only
        simp only [List.nil_append]
        rw [show (serializeSpec (.array vs)).length =
            (42 :: natDecimal vs.length ++ [13, 10]).length +
              (serializeSpecList vs).length from by
          simp [serializeSpec]; omega]
    refine ⟨hP, ?_⟩
    intro vs
    induction vs with
    | nil =>
      intro hw hn l tail acc
      simp [runItems, serializeSpecList]
    | cons v r ihr =>
      intro hw hn l tail acc
      simp only [withinLimitsList, Bool.and_eq_true] at hw
      have hnv : maxNest v ≤ g + 1 := by
        simp only [maxNestList] at hn
        omega
      have hnr : maxNestList r ≤ g + 1 := by
        simp only [maxNestList] at hn
        omega
      simp only [List.length_cons, runItems]
      have hd2 : l ++ (serializeSpecList (v :: r) ++ tail) =
          l ++ (serializeSpec v ++ (serializeSpecList r ++ tail)) := by
        simp [serializeSpecList]
      rw [hd2]
      have hshifted := parseAt_shift NewParser l
        (serializeSpec v ++ (serializeSpecList r ++ tail)) (g + 1) 0
      simp only [Nat.add_zero] at hshifted
      rw [hP v hw.1 hnv (serializeSpecList r ++ tail)] at hshifted
      simp only [shiftResult] at hshifted
      rw [hshifted]
      dsimp only
      rw [show l ++ (serializeSpec v ++ (serializeSpecList r ++ tail)) =
          (l ++ serializeSpec v) ++ (serializeSpecList r ++ tail) from by simp,
        show l.length + (serializeSpec v).length = (l ++ serializeSpec v).length from
          (List.length_append l _).symm,
        ihr hw.2 hnr (l ++ serializeSpec v) tail (acc ++ [v])]
      rw [show (acc ++ [v]) ++ r = acc ++ v :: r from by simp]
      refine congrArg (ItemsResult.ok _) ?_
      simp only [List.length_append, serializeSpecList]
      omega

theorem serializeSpec_ne_nil : ∀ (v : Value), serializeSpec v ≠ []
  | .simpleString s => by simp [serializeSpec]
  | .error s => by simp [serializeSpec]
  | .integer n => by simp [serializeSpec]
  | .bulkString s => by simp [serializeSpec]
  | .array vs => by simp [serializeSpec]
  | .null => by simp [serializeSpec]

theorem feedLoop_at_end (p : Parser) (data : List Nat) (fuel offset : Nat)
    (acc : List Value) (h : data.length ≤ offset) :
    feedLoop p data fuel offset acc = .done acc offset := by
  cases fuel with
  | zero => rfl
  | succ fuel =>
    simp only [feedLoop, feedLoopCore]
    rw [if_neg (by omega)]

theorem single_feed_of_serialized (v : Value) (hw : withinLimits v = true)
    (hd : maxNest v ≤ NewParser.maxDepth + 1) :
    Feed NewParser (serializeSpec v) = (([v], none), NewParser) := by
  have hparse : parseAt NewParser (serializeSpec v) (NewParser.maxDepth + 1) 0 =
      .ok v (serializeSpec v).length := by
    have h := (parse_serialize (NewParser.maxDepth + 1)).1 v hw hd []
    rwa [List.append_nil] at h
  have hp2 : parseAtCore NewParser.maxBulkLen NewParser.maxArrayLen NewParser.maxDepth
      (serializeSpec v) (NewParser.maxDepth + 1) 0 = .ok v (serializeSpec v).length :=
    hparse
  have hlsv : 0 < (serializeSpec v).length := by
    cases hsv : serializeSpec v with
    | nil => exact absurd hsv (serializeSpec_ne_nil v)
    | cons b l => simp
  have hloop : feedLoop NewParser (serializeSpec v) ((serializeSpec v).length + 1) 0 [] =
      .done [v] (serializeSpec v).length := by
    simp only [feedLoop, feedLoopCore]
    rw [if_pos hlsv, hp2]
    dsimp only
    have hend := feedLoop_at_end NewParser (serializeSpec v) (serializeSpec v).length
      (serializeSpec v).length ([] ++ [v]) (Nat.le_refl _)
    rw [show feedLoopCore NewParser.maxBulkLen NewParser.maxArrayLen NewParser.maxDepth
        (serializeSpec v) (serializeSpec v).length (serializeSpec v).length ([] ++ [v]) =
        .done ([] ++ [v]) (serializeSpec v).length from hend]
    simp
  have hfeed : Feed NewParser (serializeSpec v) =
      (if (serializeSpec v).isEmpty then (([], none), { NewParser with buf := [] })
       else
        match feedLoop NewParser (serializeSpec v) ((serializeSpec v).length + 1) 0 [] with
        | .fail e => (([], some e), { NewParser with buf := [] })
        | .done vs offset =>
            ((vs, none), { NewParser with buf := (serializeSpec v).drop offset })) := rfl
  rw [hfeed, if_neg (by simp [List.isEmpty_iff, serializeSpec_ne_nil v]), hloop]
  dsimp only
  rw [show (serializeSpec v).drop (serializeSpec v).length = ([] : List Nat) from by simp]
  rfl

/-- Nested arrays: `nestedArray k` is `k + 1` array levels deep. -/
def nestedArray : Nat → Value
  | 0 => .array []
  | n + 1 => .array [nestedArray n]

set_option maxRecDepth 40000 in
/-- C1 counterexample: the 66-level array nesting `nestedArray 65` satisfies the
no-CRLF invariant and encodes fine, but feeding its encoding back errors with
depth-exceeded (`parseAt` admits at most `maxDepth + 1 = 65` levels), so the
decode returns no frame at all. -/
theorem roundtrip_depth_counterexample :
    containsBadInline (nestedArray 65) = false ∧
    Encode (nestedArray 65) = .ok (serializeSpec (nestedArray 65)) ∧
    Feed NewParser (serializeSpec (nestedArray 65)) =
      (([], some (.depthExceeded 64)), { NewParser with buf := [] }) := by
  refine ⟨by decide, by decide, by decide⟩

/-- **C1** (corrected): the unconditional round-trip fails for values deeper
than the parser's depth budget (and for ones past the bulk/array size limits),
which encode fine but do not decode.  Amended: for every Value within the
fresh parser's limits — no CR/LF in `SimpleString`/`Error` payloads,
`int64`-range integers, bulk payloads within `maxBulkLen`, arrays within
`maxArrayLen`, and nesting height at most `maxDepth + 1` — feeding
`Encode`'s output to a fresh parser in one `Feed` call, or split at arbitrary
chunk boundaries across successive `Feed` calls, returns exactly the frame
list `[v]` with no error and an empty parser buffer. -/
theorem encode_feed_roundtrip (v : Value) (bytes : List Nat)
    (hw : withinLimits v = true) (hd : maxNest v ≤ NewParser.maxDepth + 1)
    (henc : Encode v = .ok bytes) :
    Feed NewParser bytes = (([v], none), NewParser) ∧
    ∀ (chunks : List (List Nat)), chunks.flatten = bytes →
      feedList NewParser chunks = (([v], []), NewParser) := by
  have hclean : containsBadInline v = false := containsBadInline_of_within v hw
  have henc2 : Encode v = .ok (serializeSpec v) := by
    have h := appendEncode_ok_of_clean v [] hclean
    simpa [Encode] using h
  have hbytes : bytes = serializeSpec v := by
    rw [henc] at henc2
    injection henc2
  subst hbytes
  have hsingle := single_feed_of_serialized v hw hd
  refine ⟨hsingle, ?_⟩
  intro chunks hflat
  refine chunked_of_single chunks [v] NewParser ?_
  rw [hflat]
  exact hsingle

theorem encode_feed_roundtrip_witness :
    Feed NewParser [42, 50, 13, 10, 58, 53, 13, 10, 36, 49, 13, 10, 97, 13, 10] =
      (([.array [.integer 5, .bulkString [97]]], none), NewParser) ∧
    feedList NewParser [[42, 50, 13, 10, 58, 53], [13, 10, 36, 49, 13, 10, 97, 13, 10]] =
      (([.array [.integer 5, .bulkString [97]]], []), NewParser) := by
  have h := encode_feed_roundtrip (.array [.integer 5, .bulkString [97]])
    [42, 50, 13, 10, 58, 53, 13, 10, 36, 49, 13, 10, 97, 13, 10]
    (by decide) (by decide) (by decide)
  exact ⟨h.1, h.2 [[42, 50, 13, 10, 58, 53], [13, 10, 36, 49, 13, 10, 97, 13, 10]]
    (by decide)⟩

end LibxevRedis
